import Mathlib

/-!
Verification of the host-side orchestration core of GPUSPH (GPUSPH.cc):
the particle partitioner (`sortParticlesByHash` / `particleSwap`), the
command dispatcher (`doCommand`), the simulation loop's failure and
termination handling (`runSimulation`), the index bookkeeping
(`updateArrayIndices`) and the roll-call diagnostic (`rollCallParticles`).

The embedding is a shallow one: each C++ routine is translated into a pure
Lean function over explicit state.  Machine integers are modelled as `Nat`
(no overflow occurs in the verified ranges; where the C code would wrap an
unsigned counter below zero the model returns `none`, marking undefined
behaviour).  Floating-point time/timestep values are modelled as rationals;
the one floating-point addition (`t += dt`) is not modelled: its result is
taken as an input of the end-of-iteration guard logic.
-/

namespace GPUSPH

/- ## Partitioner: `GPUSPH::sortParticlesByHash` and `GPUSPH::particleSwap`

The particle array is modelled as a `List α` of whole particle records
(one entry bundles the element of every parallel host buffer at that
index).  `GPUSPH::particleSwap` swaps every parallel buffer at the same
index pair, and the sort additionally swaps `m_hParticleKeys` with the
same indices, so the key of a record is a pure function of the record:
`key = GLOBAL_DEVICE_NUM (s_hDeviceMap (cellHashFromParticleHash (hash x)))`.
`GLOBAL_DEVICE_NUM`, `RANK`, `DEVICE` (GlobalData.h) and the hash/map
lookup are not part of the provided sources and are kept abstract. -/

/-- Model of `GPUSPH::particleSwap` (plus the parallel `swap` of
`m_hParticleKeys`): swap the records at indices `idx1` and `idx2` in every
host buffer.  Out-of-range indices leave the list unchanged (this never
happens in the runs we verify). -/
def particleSwap {α : Type} (l : List α) (idx1 idx2 : ℕ) : List α :=
  match l[idx1]?, l[idx2]? with
  | some a, some b => (l.set idx1 b).set idx2 a
  | _, _ => l

/-- Model of the right-cursor scan
`while (gdata->GLOBAL_DEVICE_NUM( m_hParticleKeys[rightB] ) != currentGlobalDevice) rightB--;`.
`none` models the C code decrementing the unsigned `rightB` below zero and
reading out of bounds (undefined behaviour, no exception is thrown). -/
def scanRight {α : Type} (key : α → ℕ) (l : List α) (current : ℕ) : ℕ → Option ℕ
  | 0 =>
    match l[0]? with
    | none => none
    | some x => if key x = current then some 0 else none
  | r + 1 =>
    match l[r + 1]? with
    | none => none
    | some x => if key x = current then some (r + 1) else scanRight key l current r

/-- Model of one bucket of the compaction sort: the
`while (leftB < nextBucketBeginsAt)` loop of `GPUSPH::sortParticlesByHash`.
Returns the updated particle list, the final `leftB` and the running
number of swaps performed (`none` on an out-of-bounds access). -/
def bucketPass {α : Type} (key : α → ℕ) (currentGlobalDevice nextBucketBeginsAt : ℕ)
    (l : List α) (leftB rightB swaps : ℕ) : Option (List α × ℕ × ℕ) :=
  if h : leftB < nextBucketBeginsAt then
    match l[leftB]? with
    | none => none
    | some x =>
      if key x = currentGlobalDevice then
        bucketPass key currentGlobalDevice nextBucketBeginsAt l (leftB + 1) rightB swaps
      else
        match scanRight key l currentGlobalDevice rightB with
        | none => none
        | some r =>
          bucketPass key currentGlobalDevice nextBucketBeginsAt
            (particleSwap l leftB r) (leftB + 1) r (swaps + 1)
  else
    some (l, leftB, swaps)
termination_by nextBucketBeginsAt - leftB
decreasing_by all_goals omega

/-- Model of the outer bucket loop
`for (currentGlobalDevice = 0; currentGlobalDevice < totDevices - 1; ...)`:
`nextBucketBeginsAt` is advanced by the bucket's count and `rightB` is
reset to `maxIdx` for each bucket. -/
def bucketLoop {α : Type} (key : α → ℕ) (counts : ℕ → ℕ) (maxIdx : ℕ) :
    ℕ → ℕ → List α → ℕ → ℕ → ℕ → Option (List α × ℕ)
  | 0, _, l, _, _, swaps => some (l, swaps)
  | bucketsLeft + 1, currentGlobalDevice, l, leftB, nextBucketBeginsAt, swaps =>
    match bucketPass key currentGlobalDevice (nextBucketBeginsAt + counts currentGlobalDevice)
        l leftB maxIdx swaps with
    | none => none
    | some (l', leftB', swaps') =>
      bucketLoop key counts maxIdx bucketsLeft (currentGlobalDevice + 1) l' leftB'
        (nextBucketBeginsAt + counts currentGlobalDevice) swaps'

/-- The three counter arrays filled by the first pass of
`sortParticlesByHash` (reset to zero at its start). -/
structure SortCounters where
  s_hPartsPerDevice : ℕ → ℕ
  processParticles : ℕ → ℕ
  particlesPerGlobalDevice : ℕ → ℕ

/-- Counter table `f` with the entry at `i` incremented (a C `f[i]++`). -/
def bump (f : ℕ → ℕ) (i : ℕ) : ℕ → ℕ := fun j => if j = i then f j + 1 else f j

/-- One iteration of the counting pass of `sortParticlesByHash`: given the
particle's device key `k = s_hDeviceMap[cellHash]`, increment
`processParticles[RANK(k)]`, `particlesPerGlobalDevice[GLOBAL_DEVICE_NUM(k)]`
and, when `RANK(k) == mpi_rank`, `s_hPartsPerDevice[DEVICE(k)]`. -/
def countStep {κ : Type} (RANK DEVICE GDN : κ → ℕ) (mpi_rank : ℕ)
    (c : SortCounters) (k : κ) : SortCounters where
  s_hPartsPerDevice :=
    if RANK k = mpi_rank then bump c.s_hPartsPerDevice (DEVICE k) else c.s_hPartsPerDevice
  processParticles := bump c.processParticles (RANK k)
  particlesPerGlobalDevice := bump c.particlesPerGlobalDevice (GDN k)

/-- The counting pass (`for (uint p = 0; p < gdata->totParticles; p++) ...`),
starting from the reset counters. -/
def countPass {α κ : Type} (RANK DEVICE GDN : κ → ℕ) (mpi_rank : ℕ)
    (devKey : α → κ) (l : List α) : SortCounters :=
  l.foldl (fun c x => countStep RANK DEVICE GDN mpi_rank c (devKey x))
    ⟨fun _ => 0, fun _ => 0, fun _ => 0⟩

/-- Sum `f 0 + f 1 + ... + f (n-1)` (the C loops `for (prev = 0; prev < n; prev++)`). -/
def sumBelow (f : ℕ → ℕ) : ℕ → ℕ
  | 0 => 0
  | n + 1 => sumBelow f n + f n

/-- Model of the `s_hStartPerDevice` incremental-sum update of
`sortParticlesByHash`: entry 0 is 0 (plus, in multi-node runs, the totals
of the previous nodes), and each further entry adds the previous device's
count. -/
def s_hStartPerDeviceCalc (multi_node : Bool) (mpi_rank : ℕ) (c : SortCounters) : ℕ → ℕ
  | 0 => if multi_node then sumBelow c.processParticles mpi_rank else 0
  | d + 1 => s_hStartPerDeviceCalc multi_node mpi_rank c d + c.s_hPartsPerDevice d

/-- Everything `sortParticlesByHash` produces: the counter arrays, the
start offsets and the reordered particle array (with the number of swaps
the compaction performed). -/
structure SortOutcome (α : Type) where
  counters : SortCounters
  startPerDevice : ℕ → ℕ
  sorted : List α
  swaps : ℕ

/-- Model of `GPUSPH::sortParticlesByHash`: counting pass, start-offset
prefix sums, then the in-place hybrid counting/compaction sort over the
buckets `0 .. totDevices - 2`.  `none` models the undefined behaviour of a
failed right-cursor scan. -/
def sortParticlesByHash {α κ : Type} (RANK DEVICE GDN : κ → ℕ) (mpi_rank : ℕ)
    (multi_node : Bool) (devKey : α → κ) (totDevices : ℕ) (l : List α) :
    Option (SortOutcome α) :=
  let c := countPass RANK DEVICE GDN mpi_rank devKey l
  match bucketLoop (fun x => GDN (devKey x)) c.particlesPerGlobalDevice (l.length - 1)
      (totDevices - 1) 0 l 0 0 0 with
  | none => none
  | some (l', swaps) => some ⟨c, s_hStartPerDeviceCalc multi_node mpi_rank c, l', swaps⟩

/- ## Basic lemmas about `particleSwap` -/

theorem particleSwap_length {α : Type} (l : List α) (i j : ℕ) :
    (particleSwap l i j).length = l.length := by
  unfold particleSwap
  rcases h1 : l[i]? with _ | a <;> rcases h2 : l[j]? with _ | b <;> simp

theorem particleSwap_eq {α : Type} (l : List α) (i j : ℕ)
    (hi : i < l.length) (hj : j < l.length) :
    particleSwap l i j = (l.set i (l.get ⟨j, hj⟩)).set j (l.get ⟨i, hi⟩) := by
  unfold particleSwap
  rw [List.getElem?_eq_getElem hi, List.getElem?_eq_getElem hj]
  simp [List.get_eq_getElem]

theorem cons_set_perm {α : Type} :
    ∀ (t : List α) (k : ℕ) (hk : k < t.length) (a : α),
    List.Perm (t.get ⟨k, hk⟩ :: t.set k a) (a :: t)
  | b :: t', 0, _, a => by
    simpa using List.Perm.swap a b t'
  | b :: t', k + 1, hk, a => by
    have hk' : k < t'.length := by simpa using Nat.lt_of_succ_lt_succ hk
    have ih := cons_set_perm t' k hk' a
    have step1 : List.Perm (t'.get ⟨k, hk'⟩ :: b :: t'.set k a)
        (b :: t'.get ⟨k, hk'⟩ :: t'.set k a) := List.Perm.swap b _ _
    have step3 : List.Perm (b :: a :: t') (a :: b :: t') := List.Perm.swap a b t'
    simpa using step1.trans ((ih.cons b).trans step3)

theorem set_set_perm {α : Type} :
    ∀ (l : List α) (i j : ℕ) (hi : i < l.length) (hj : j < l.length),
    List.Perm ((l.set i (l.get ⟨j, hj⟩)).set j (l.get ⟨i, hi⟩)) l
  | a :: t, 0, 0, _, _ => by simp
  | a :: t, 0, j + 1, hi, hj => by
    have hj' : j < t.length := by simpa using Nat.lt_of_succ_lt_succ hj
    simpa using cons_set_perm t j hj' a
  | a :: t, i + 1, 0, hi, hj => by
    have hi' : i < t.length := by simpa using Nat.lt_of_succ_lt_succ hi
    simpa using cons_set_perm t i hi' a
  | a :: t, i + 1, j + 1, hi, hj => by
    have hi' : i < t.length := by simpa using Nat.lt_of_succ_lt_succ hi
    have hj' : j < t.length := by simpa using Nat.lt_of_succ_lt_succ hj
    simpa using (set_set_perm t i j hi' hj').cons a

theorem particleSwap_perm {α : Type} (l : List α) (i j : ℕ)
    (hi : i < l.length) (hj : j < l.length) :
    List.Perm (particleSwap l i j) l := by
  rw [particleSwap_eq l i j hi hj]
  exact set_set_perm l i j hi hj

theorem particleSwap_getElem?_fst {α : Type} (l : List α) (i j : ℕ)
    (hi : i < l.length) (hj : j < l.length) :
    (particleSwap l i j)[i]? = l[j]? := by
  rw [particleSwap_eq l i j hi hj]
  by_cases hij : i = j
  · subst hij
    simp [List.getElem?_set, hi, List.get_eq_getElem, List.getElem?_eq_getElem]
  · simp [List.getElem?_set, hi, hj, Ne.symm hij, List.get_eq_getElem,
      List.getElem?_eq_getElem]

theorem particleSwap_getElem?_snd {α : Type} (l : List α) (i j : ℕ)
    (hi : i < l.length) (hj : j < l.length) :
    (particleSwap l i j)[j]? = l[i]? := by
  rw [particleSwap_eq l i j hi hj]
  simp [List.getElem?_set, hi, hj, List.get_eq_getElem, List.getElem?_eq_getElem]

theorem particleSwap_getElem?_other {α : Type} (l : List α) (i j k : ℕ)
    (hi : i < l.length) (hj : j < l.length) (hki : k ≠ i) (hkj : k ≠ j) :
    (particleSwap l i j)[k]? = l[k]? := by
  rw [particleSwap_eq l i j hi hj]
  simp [List.getElem?_set, Ne.symm hki, Ne.symm hkj]

theorem get_of_getElem? {α : Type} (l : List α) (k : ℕ) (hk : k < l.length) (x : α)
    (h : l[k]? = some x) : l.get ⟨k, hk⟩ = x := by
  rw [List.getElem?_eq_getElem hk] at h
  simpa [List.get_eq_getElem] using Option.some_injective _ h

theorem particleSwap_get_fst {α : Type} (l : List α) (i j : ℕ)
    (hi : i < l.length) (hj : j < l.length)
    (hi' : i < (particleSwap l i j).length) :
    (particleSwap l i j).get ⟨i, hi'⟩ = l.get ⟨j, hj⟩ := by
  refine get_of_getElem? _ i hi' _ ?_
  rw [particleSwap_getElem?_fst l i j hi hj, List.getElem?_eq_getElem hj]
  simp [List.get_eq_getElem]

theorem particleSwap_get_snd {α : Type} (l : List α) (i j : ℕ)
    (hi : i < l.length) (hj : j < l.length)
    (hj' : j < (particleSwap l i j).length) :
    (particleSwap l i j).get ⟨j, hj'⟩ = l.get ⟨i, hi⟩ := by
  refine get_of_getElem? _ j hj' _ ?_
  rw [particleSwap_getElem?_snd l i j hi hj, List.getElem?_eq_getElem hi]
  simp [List.get_eq_getElem]

theorem particleSwap_get_other {α : Type} (l : List α) (i j k : ℕ)
    (hi : i < l.length) (hj : j < l.length) (hki : k ≠ i) (hkj : k ≠ j)
    (hk' : k < (particleSwap l i j).length) (hk : k < l.length) :
    (particleSwap l i j).get ⟨k, hk'⟩ = l.get ⟨k, hk⟩ := by
  refine get_of_getElem? _ k hk' _ ?_
  rw [particleSwap_getElem?_other l i j k hi hj hki hkj, List.getElem?_eq_getElem hk]
  simp [List.get_eq_getElem]

/- ## Specification notions for the partitioner

`sumBelow counts b` is the start offset of bucket `b` in the final layout
(prefix sum of the bucket counts); a particle record `x` is canonically
placed at index `i` when `i` lies inside the range of `x`'s own bucket. -/

/-- Index `i` lies in the canonical range of the bucket of record `x`. -/
def inBucket {α : Type} (key : α → ℕ) (counts : ℕ → ℕ) (i : ℕ) (x : α) : Prop :=
  sumBelow counts (key x) ≤ i ∧ i < sumBelow counts (key x + 1)

/-- The first `m` positions of `l` all hold canonically placed records. -/
def prefixSorted {α : Type} (key : α → ℕ) (counts : ℕ → ℕ) (l : List α) (m : ℕ) : Prop :=
  ∀ i (h : i < l.length), i < m → inBucket key counts i (l.get ⟨i, h⟩)

theorem sumBelow_mono (f : ℕ → ℕ) {a b : ℕ} (h : a ≤ b) :
    sumBelow f a ≤ sumBelow f b := by
  induction b with
  | zero => simpa [Nat.le_zero.mp h] using Nat.le_refl _
  | succ n ih =>
    rcases Nat.lt_or_ge a (n + 1) with h' | h'
    · exact le_trans (ih (Nat.lt_succ_iff.mp h')) (by simp [sumBelow])
    · have : a = n + 1 := le_antisymm h h'
      subst this; exact Nat.le_refl _

/-- A position lies in the canonical range of at most one bucket. -/
theorem bucket_unique (counts : ℕ → ℕ) {b c i : ℕ}
    (hb : sumBelow counts b ≤ i) (hb' : i < sumBelow counts (b + 1))
    (hc : sumBelow counts c ≤ i) (hc' : i < sumBelow counts (c + 1)) : b = c := by
  by_contra hne
  rcases Nat.lt_or_ge b c with h | h
  · have := sumBelow_mono counts (show b + 1 ≤ c from h)
    omega
  · have hlt : c < b := lt_of_le_of_ne h (Ne.symm hne)
    have := sumBelow_mono counts (show c + 1 ≤ b from hlt)
    omega

/- ### Unfolding equations for `bucketPass` -/

theorem bucketPass_stop {α : Type} (key : α → ℕ) (c B : ℕ) (l : List α)
    (leftB rightB swaps : ℕ) (h : ¬ leftB < B) :
    bucketPass key c B l leftB rightB swaps = some (l, leftB, swaps) := by
  rw [bucketPass, dif_neg h]

theorem bucketPass_hit {α : Type} (key : α → ℕ) (c B : ℕ) (l : List α)
    (leftB rightB swaps : ℕ) (x : α) (h : leftB < B) (hx : l[leftB]? = some x)
    (hk : key x = c) :
    bucketPass key c B l leftB rightB swaps =
      bucketPass key c B l (leftB + 1) rightB swaps := by
  rw [bucketPass, dif_pos h, hx]
  simp [hk]

theorem bucketPass_scan_none {α : Type} (key : α → ℕ) (c B : ℕ) (l : List α)
    (leftB rightB swaps : ℕ) (x : α) (h : leftB < B) (hx : l[leftB]? = some x)
    (hk : ¬ key x = c) (hscan : scanRight key l c rightB = none) :
    bucketPass key c B l leftB rightB swaps = none := by
  rw [bucketPass, dif_pos h, hx]
  simp [hk, hscan]

theorem bucketPass_scan_some {α : Type} (key : α → ℕ) (c B : ℕ) (l : List α)
    (leftB rightB swaps : ℕ) (x : α) (r : ℕ) (h : leftB < B) (hx : l[leftB]? = some x)
    (hk : ¬ key x = c) (hscan : scanRight key l c rightB = some r) :
    bucketPass key c B l leftB rightB swaps =
      bucketPass key c B (particleSwap l leftB r) (leftB + 1) r (swaps + 1) := by
  rw [bucketPass, dif_pos h, hx]
  simp [hk, hscan]

/- ### The right-cursor scan finds the rightmost in-range record of the bucket -/

theorem scanRight_some {α : Type} (key : α → ℕ) (l : List α) (c : ℕ) :
    ∀ (r : ℕ), r < l.length →
    ∀ j (hj : j < l.length), j ≤ r → key (l.get ⟨j, hj⟩) = c →
    ∃ (s : ℕ) (hs : s < l.length), scanRight key l c r = some s ∧ j ≤ s ∧ s ≤ r ∧
      key (l.get ⟨s, hs⟩) = c ∧
      ∀ t (ht : t < l.length), s < t → t ≤ r → key (l.get ⟨t, ht⟩) ≠ c := by
  intro r
  induction r with
  | zero =>
    intro hr j hj hjr hkey
    interval_cases j
    refine ⟨0, hr, ?_, Nat.le_refl _, Nat.le_refl _, hkey, ?_⟩
    · rw [scanRight, List.getElem?_eq_getElem hr]
      simp only [List.get_eq_getElem] at hkey
      simp [hkey]
    · intro t ht h1 h2; omega
  | succ r ih =>
    intro hr j hj hjr hkey
    by_cases htop : key (l.get ⟨r + 1, hr⟩) = c
    · refine ⟨r + 1, hr, ?_, hjr, Nat.le_refl _, htop, ?_⟩
      · rw [scanRight, List.getElem?_eq_getElem hr]
        simp only [List.get_eq_getElem] at htop
        simp [htop]
      · intro t ht h1 h2; omega
    · have hjr' : j ≤ r := by
        rcases Nat.lt_or_ge j (r + 1) with h | h
        · exact Nat.lt_succ_iff.mp h
        · exfalso; have : j = r + 1 := le_antisymm hjr h
          subst this; exact htop hkey
      obtain ⟨s, hs, hscan, hjs, hsr, hkeys, hmax⟩ :=
        ih (lt_trans (Nat.lt_succ_self r) hr) j hj hjr' hkey
      refine ⟨s, hs, ?_, hjs, le_trans hsr (Nat.le_succ r), hkeys, ?_⟩
      · rw [scanRight, List.getElem?_eq_getElem hr]
        have : ¬ key l[r + 1] = c := by
          simpa [List.get_eq_getElem] using htop
        simp [this, hscan]
      · intro t ht h1 h2
        rcases Nat.lt_or_ge t (r + 1) with h | h
        · exact hmax t ht h1 (Nat.lt_succ_iff.mp h)
        · have : t = r + 1 := le_antisymm h2 h
          subst this; simpa [List.get_eq_getElem] using htop

/- ### The counting pass computes bucket counts -/

theorem countPass_particlesPerGlobalDevice_go {α κ : Type} (RANK DEVICE GDN : κ → ℕ)
    (mpi_rank : ℕ) (devKey : α → κ) (g : ℕ) :
    ∀ (l : List α) (c : SortCounters),
    (l.foldl (fun c x => countStep RANK DEVICE GDN mpi_rank c (devKey x))
        c).particlesPerGlobalDevice g =
      c.particlesPerGlobalDevice g + l.countP (fun x => GDN (devKey x) == g) := by
  intro l
  induction l with
  | nil => intro c; simp
  | cons a l ih =>
    intro c
    rw [List.foldl_cons, ih, List.countP_cons]
    by_cases h : GDN (devKey a) = g
    · simp [countStep, bump, h]; omega
    · simp [countStep, bump, h, Ne.symm h]

theorem countPass_s_hPartsPerDevice_go {α κ : Type} (RANK DEVICE GDN : κ → ℕ)
    (mpi_rank : ℕ) (devKey : α → κ) (d : ℕ) :
    ∀ (l : List α) (c : SortCounters),
    (l.foldl (fun c x => countStep RANK DEVICE GDN mpi_rank c (devKey x))
        c).s_hPartsPerDevice d =
      c.s_hPartsPerDevice d +
        l.countP (fun x => RANK (devKey x) == mpi_rank && DEVICE (devKey x) == d) := by
  intro l
  induction l with
  | nil => intro c; simp
  | cons a l ih =>
    intro c
    rw [List.foldl_cons, ih, List.countP_cons]
    by_cases hr : RANK (devKey a) = mpi_rank
    · by_cases hd : DEVICE (devKey a) = d
      · simp [countStep, bump, hr, hd]; omega
      · simp [countStep, bump, hr, hd, Ne.symm hd]
    · simp [countStep, bump, hr]

theorem countPass_processParticles_go {α κ : Type} (RANK DEVICE GDN : κ → ℕ)
    (mpi_rank : ℕ) (devKey : α → κ) (n : ℕ) :
    ∀ (l : List α) (c : SortCounters),
    (l.foldl (fun c x => countStep RANK DEVICE GDN mpi_rank c (devKey x))
        c).processParticles n =
      c.processParticles n + l.countP (fun x => RANK (devKey x) == n) := by
  intro l
  induction l with
  | nil => intro c; simp
  | cons a l ih =>
    intro c
    rw [List.foldl_cons, ih, List.countP_cons]
    by_cases h : RANK (devKey a) = n
    · simp [countStep, bump, h]; omega
    · simp [countStep, bump, h, Ne.symm h]

theorem countPass_particlesPerGlobalDevice {α κ : Type} (RANK DEVICE GDN : κ → ℕ)
    (mpi_rank : ℕ) (devKey : α → κ) (l : List α) (g : ℕ) :
    (countPass RANK DEVICE GDN mpi_rank devKey l).particlesPerGlobalDevice g =
      l.countP (fun x => GDN (devKey x) == g) := by
  unfold countPass
  rw [countPass_particlesPerGlobalDevice_go]
  simp

theorem countPass_s_hPartsPerDevice {α κ : Type} (RANK DEVICE GDN : κ → ℕ)
    (mpi_rank : ℕ) (devKey : α → κ) (l : List α) (d : ℕ) :
    (countPass RANK DEVICE GDN mpi_rank devKey l).s_hPartsPerDevice d =
      l.countP (fun x => RANK (devKey x) == mpi_rank && DEVICE (devKey x) == d) := by
  unfold countPass
  rw [countPass_s_hPartsPerDevice_go]
  simp

/- ### Counting elements with key below a bound -/

theorem countP_lt_succ {α : Type} (key : α → ℕ) (T : ℕ) :
    ∀ l : List α, l.countP (fun x => decide (key x < T + 1)) =
      l.countP (fun x => decide (key x < T)) + l.countP (fun x => key x == T) := by
  intro l
  induction l with
  | nil => simp
  | cons a l ih =>
    simp only [List.countP_cons, ih]
    by_cases h : key a = T
    · simp [h]; omega
    · by_cases h2 : key a < T
      · simp [h, h2, Nat.lt_succ_of_lt h2]; omega
      · have h3 : ¬ key a < T + 1 := by omega
        simp [h, h2, h3]

/-- The bucket start offsets are counts of records with a smaller key. -/
theorem sumBelow_counts_eq {α : Type} (key : α → ℕ) (counts : ℕ → ℕ) (l₀ : List α)
    (hc : ∀ b, l₀.countP (fun x => key x == b) = counts b) (T : ℕ) :
    sumBelow counts T = l₀.countP (fun x => decide (key x < T)) := by
  induction T with
  | zero => simp [sumBelow]
  | succ T ih => rw [sumBelow, ih, countP_lt_succ, hc]

theorem sumBelow_counts_le_length {α : Type} (key : α → ℕ) (counts : ℕ → ℕ)
    (l₀ : List α) (hc : ∀ b, l₀.countP (fun x => key x == b) = counts b) (T : ℕ) :
    sumBelow counts T ≤ l₀.length := by
  rw [sumBelow_counts_eq key counts l₀ hc T]
  exact List.countP_le_length _

theorem sumBelow_counts_total {α : Type} (key : α → ℕ) (counts : ℕ → ℕ)
    (l₀ : List α) (hc : ∀ b, l₀.countP (fun x => key x == b) = counts b)
    (T : ℕ) (hkey : ∀ x ∈ l₀, key x < T) :
    sumBelow counts T = l₀.length := by
  rw [sumBelow_counts_eq key counts l₀ hc T]
  rw [List.countP_eq_length]
  intro x hx
  simpa using hkey x hx

/- ### Counting keys in a canonically placed region -/

theorem countP_take_of_prefixSorted {α : Type} (key : α → ℕ) (counts : ℕ → ℕ)
    (l : List α) :
    ∀ (m : ℕ), m ≤ l.length → prefixSorted key counts l m → ∀ c,
    (l.take m).countP (fun x => key x == c) =
      min m (sumBelow counts (c + 1)) - min m (sumBelow counts c) := by
  intro m
  induction m with
  | zero => intro _ _ c; simp
  | succ m ih =>
    intro hm hps c
    have hmlt : m < l.length := hm
    have hps' : prefixSorted key counts l m := by
      intro i h hi; exact hps i h (Nat.lt_succ_of_lt hi)
    have hbkt := hps m hmlt (Nat.lt_succ_self m)
    rw [List.take_succ, List.getElem?_eq_getElem hmlt]
    rw [List.countP_append, ih (le_of_lt hmlt) hps' c]
    rcases hbkt with ⟨hb1, hb2⟩
    set b := key (l.get ⟨m, hmlt⟩) with hbdef
    have hc1 : sumBelow counts c ≤ sumBelow counts (c + 1) :=
      sumBelow_mono counts (Nat.le_succ c)
    have hb' : key l[m] = b := by
      rw [List.get_eq_getElem] at hbdef
      exact hbdef.symm
    by_cases hcb : b = c
    · subst hcb
      have : (Option.toList (some (l[m]))).countP (fun x => key x == b) = 1 := by
        simp [Option.toList, hb']
      rw [this]
      omega
    · have : (Option.toList (some (l[m]))).countP (fun x => key x == c) = 0 := by
        simp [Option.toList, hb', hcb]
      rw [this]
      rcases Nat.lt_or_ge b c with h | h
      · have h2 : sumBelow counts (b + 1) ≤ sumBelow counts c :=
          sumBelow_mono counts (show b + 1 ≤ c from h)
        omega
      · have hbc : c < b := lt_of_le_of_ne h (fun e => hcb e.symm)
        have h2 : sumBelow counts (c + 1) ≤ sumBelow counts b :=
          sumBelow_mono counts (show c + 1 ≤ b from hbc)
        have h3 : sumBelow counts b ≤ sumBelow counts (b + 1) :=
          sumBelow_mono counts (Nat.le_succ b)
        omega

/-- In a partially compacted array there is still a record of bucket `c` at
or beyond position `m`, as long as bucket `c`'s range is not fully built. -/
theorem exists_key_in_suffix {α : Type} (key : α → ℕ) (counts : ℕ → ℕ)
    (l l₀ : List α) (hperm : l.Perm l₀)
    (hc : ∀ b, l₀.countP (fun x => key x == b) = counts b)
    (m c : ℕ) (hSc : sumBelow counts c ≤ m) (hm : m < sumBelow counts (c + 1))
    (hps : prefixSorted key counts l m) :
    ∃ (j : ℕ) (hj : j < l.length), m ≤ j ∧ key (l.get ⟨j, hj⟩) = c := by
  have hlen0 : l.length = l₀.length := hperm.length_eq
  have hlen : sumBelow counts (c + 1) ≤ l.length := by
    rw [hlen0]; exact sumBelow_counts_le_length key counts l₀ hc (c + 1)
  have hmlen : m ≤ l.length := le_trans (le_of_lt hm) hlen
  have htake := countP_take_of_prefixSorted key counts l m hmlen hps c
  have hall : l.countP (fun x => key x == c) = counts c := by
    rw [hperm.countP_eq, hc c]
  have hsplit : (l.take m).countP (fun x => key x == c) +
      (l.drop m).countP (fun x => key x == c) = l.countP (fun x => key x == c) := by
    rw [← List.countP_append, List.take_append_drop]
  have hSsucc : sumBelow counts (c + 1) = sumBelow counts c + counts c := rfl
  have hdrop : 0 < (l.drop m).countP (fun x => key x == c) := by
    have hmin1 : min m (sumBelow counts (c + 1)) = m := min_eq_left (le_of_lt hm)
    have hmin2 : min m (sumBelow counts c) = sumBelow counts c := min_eq_right hSc
    omega
  obtain ⟨x, hxmem, hxkey⟩ := List.countP_pos.mp hdrop
  obtain ⟨k, hk, hdk⟩ := List.getElem_of_mem hxmem
  have hklen : k < l.length - m := by simpa using hk
  have hj : m + k < l.length := by omega
  refine ⟨m + k, hj, Nat.le_add_right m k, ?_⟩
  have : l[m + k] = x := by rw [← List.getElem_drop]; exact hdk
  rw [List.get_eq_getElem, this]
  simpa using hxkey

/- ### The bucket pass builds bucket `c`'s range and preserves the multiset -/

theorem bucketPass_spec {α : Type} (key : α → ℕ) (counts : ℕ → ℕ) (l₀ : List α)
    (hc : ∀ b, l₀.countP (fun x => key x == b) = counts b) (c : ℕ) :
    ∀ (fuel : ℕ) (l : List α) (leftB rightB swaps : ℕ),
    sumBelow counts (c + 1) - leftB ≤ fuel →
    l.Perm l₀ →
    sumBelow counts c ≤ leftB →
    leftB ≤ sumBelow counts (c + 1) →
    prefixSorted key counts l leftB →
    (leftB < sumBelow counts (c + 1) → rightB < l.length) →
    (∀ j (hj : j < l.length), leftB ≤ j → rightB < j → key (l.get ⟨j, hj⟩) ≠ c) →
    ∃ (l' : List α) (swaps' : ℕ),
      bucketPass key c (sumBelow counts (c + 1)) l leftB rightB swaps =
        some (l', sumBelow counts (c + 1), swaps') ∧
      l'.Perm l₀ ∧ prefixSorted key counts l' (sumBelow counts (c + 1)) := by
  intro fuel
  induction fuel with
  | zero =>
    intro l leftB rightB swaps hfuel hperm h1 h2 hps hr hJ4
    have heq : leftB = sumBelow counts (c + 1) := by omega
    subst heq
    exact ⟨l, swaps, bucketPass_stop key c _ l _ rightB swaps (lt_irrefl _), hperm, hps⟩
  | succ fuel ih =>
    intro l leftB rightB swaps hfuel hperm h1 h2 hps hr hJ4
    by_cases hlt : leftB < sumBelow counts (c + 1)
    · have hlen0 : l.length = l₀.length := hperm.length_eq
      have hlenS : sumBelow counts (c + 1) ≤ l.length := by
        rw [hlen0]; exact sumBelow_counts_le_length key counts l₀ hc (c + 1)
      have hleftlen : leftB < l.length := lt_of_lt_of_le hlt hlenS
      have hx : l[leftB]? = some (l.get ⟨leftB, hleftlen⟩) := by
        rw [List.getElem?_eq_getElem hleftlen, List.get_eq_getElem]
      by_cases hkx : key (l.get ⟨leftB, hleftlen⟩) = c
      · rw [bucketPass_hit key c _ l leftB rightB swaps _ hlt hx hkx]
        refine ih l (leftB + 1) rightB swaps (by omega) hperm (by omega) (by omega)
          ?_ (fun h => hr hlt) ?_
        · intro i h hi
          rcases Nat.lt_or_ge i leftB with h' | h'
          · exact hps i h h'
          · have : i = leftB := by omega
            subst this
            have hgeq : l.get ⟨i, h⟩ = l.get ⟨i, hleftlen⟩ := rfl
            rw [hgeq]
            exact ⟨by rw [hkx]; exact h1, by rw [hkx]; exact hlt⟩
        · intro j hj hge hgt
          exact hJ4 j hj (by omega) hgt
      · obtain ⟨j, hj, hjge, hjkey⟩ :=
          exists_key_in_suffix key counts l l₀ hperm hc leftB c h1 hlt hps
        have hjne : j ≠ leftB := by
          intro e
          apply hkx
          have : l.get ⟨j, hj⟩ = l.get ⟨leftB, hleftlen⟩ := by
            congr 1
            exact Fin.ext e
          rw [← this]; exact hjkey
        have hjr : j ≤ rightB := by
          by_contra h
          exact hJ4 j hj hjge (by omega) hjkey
        have hrlen : rightB < l.length := hr hlt
        obtain ⟨s, hs, hscan, hjs, hsr, hkeys, hmax⟩ :=
          scanRight_some key l c rightB hrlen j hj hjr hjkey
        have hsgt : leftB < s := by
          have : leftB < j := lt_of_le_of_ne hjge (Ne.symm hjne)
          omega
        rw [bucketPass_scan_some key c _ l leftB rightB swaps _ s hlt hx hkx hscan]
        have hlen2 : (particleSwap l leftB s).length = l.length :=
          particleSwap_length l leftB s
        have hperm2 : (particleSwap l leftB s).Perm l₀ :=
          (particleSwap_perm l leftB s hleftlen hs).trans hperm
        refine ih (particleSwap l leftB s) (leftB + 1) s (swaps + 1) (by omega) hperm2
          (by omega) (by omega) ?_ ?_ ?_
        · intro i h hi
          rcases Nat.lt_or_ge i leftB with h' | h'
          · have hilen : i < l.length := by omega
            rw [particleSwap_get_other l leftB s i hleftlen hs (by omega) (by omega) h hilen]
            exact hps i hilen h'
          · have : i = leftB := by omega
            subst this
            rw [particleSwap_get_fst l i s hleftlen hs h]
            exact ⟨by rw [hkeys]; exact h1, by rw [hkeys]; exact hlt⟩
        · intro _
          rw [hlen2]; exact hs
        · intro j2 hj2 hge hgt
          have hj2l : j2 < l.length := by omega
          rw [particleSwap_get_other l leftB s j2 hleftlen hs (by omega) (by omega) hj2 hj2l]
          rcases Nat.lt_or_ge rightB j2 with h' | h'
          · exact hJ4 j2 hj2l (by omega) h'
          · exact hmax j2 hj2l hgt h'
    · have heq : leftB = sumBelow counts (c + 1) := by omega
      subst heq
      exact ⟨l, swaps, bucketPass_stop key c _ l _ rightB swaps (lt_irrefl _), hperm, hps⟩

/- ### The outer bucket loop -/

theorem bucketLoop_spec {α : Type} (key : α → ℕ) (counts : ℕ → ℕ) (l₀ : List α)
    (hc : ∀ b, l₀.countP (fun x => key x == b) = counts b) :
    ∀ (k c0 : ℕ) (l : List α) (swaps : ℕ),
    l.Perm l₀ →
    prefixSorted key counts l (sumBelow counts c0) →
    ∃ (l' : List α) (swaps' : ℕ),
      bucketLoop key counts (l₀.length - 1) k c0 l (sumBelow counts c0)
        (sumBelow counts c0) swaps = some (l', swaps') ∧
      l'.Perm l₀ ∧ prefixSorted key counts l' (sumBelow counts (c0 + k)) := by
  intro k
  induction k with
  | zero =>
    intro c0 l swaps hperm hps
    exact ⟨l, swaps, rfl, hperm, hps⟩
  | succ k ih =>
    intro c0 l swaps hperm hps
    have hlen0 : l.length = l₀.length := hperm.length_eq
    have hB' : sumBelow counts c0 + counts c0 = sumBelow counts (c0 + 1) := rfl
    have hlenS : sumBelow counts (c0 + 1) ≤ l.length := by
      rw [hlen0]; exact sumBelow_counts_le_length key counts l₀ hc (c0 + 1)
    obtain ⟨l2, swaps2, hpass, hperm2, hps2⟩ :=
      bucketPass_spec key counts l₀ hc c0 (sumBelow counts (c0 + 1)) l
        (sumBelow counts c0) (l₀.length - 1) swaps (by omega) hperm (Nat.le_refl _)
        (sumBelow_mono counts (Nat.le_succ c0)) hps
        (fun h => by omega)
        (fun j hj hge hgt => by omega)
    rw [bucketLoop, hB', hpass]
    have := ih (c0 + 1) l2 swaps2 hperm2 hps2
    have harith : c0 + 1 + k = c0 + (k + 1) := by omega
    rw [harith] at this
    exact this

/-- After the loop over buckets `0 .. T-2`, the untouched tail is exactly
the last bucket: the whole array is canonically placed. -/
theorem prefixSorted_full {α : Type} (key : α → ℕ) (counts : ℕ → ℕ)
    (l l₀ : List α) (hperm : l.Perm l₀)
    (hc : ∀ b, l₀.countP (fun x => key x == b) = counts b)
    (T : ℕ) (hT : 1 ≤ T) (hkey : ∀ x ∈ l₀, key x < T)
    (hps : prefixSorted key counts l (sumBelow counts (T - 1))) :
    prefixSorted key counts l l.length := by
  intro i h _
  rcases Nat.lt_or_ge i (sumBelow counts (T - 1)) with h' | h'
  · exact hps i h h'
  · have hlen0 : l.length = l₀.length := hperm.length_eq
    have htot : sumBelow counts T = l₀.length :=
      sumBelow_counts_total key counts l₀ hc T hkey
    have hmem : l.get ⟨i, h⟩ ∈ l₀ := hperm.subset (l.get_mem i h)
    have hkeyi : key (l.get ⟨i, h⟩) < T := hkey _ hmem
    have hm : sumBelow counts (T - 1) ≤ l.length := by
      rw [hlen0, ← htot]; exact sumBelow_mono counts (by omega)
    -- no record of an earlier bucket is left at or beyond `sumBelow counts (T-1)`
    have hlast : key (l.get ⟨i, h⟩) = T - 1 := by
      by_contra hne
      have hblt : key (l.get ⟨i, h⟩) < T - 1 := by omega
      set b := key (l.get ⟨i, h⟩) with hbdef
      have htake := countP_take_of_prefixSorted key counts l (sumBelow counts (T - 1))
        hm hps b
      have hall : l.countP (fun x => key x == b) = counts b := by
        rw [hperm.countP_eq, hc b]
      have hsplit : (l.take (sumBelow counts (T - 1))).countP (fun x => key x == b) +
          (l.drop (sumBelow counts (T - 1))).countP (fun x => key x == b) =
          l.countP (fun x => key x == b) := by
        rw [← List.countP_append, List.take_append_drop]
      have hble : sumBelow counts (b + 1) ≤ sumBelow counts (T - 1) :=
        sumBelow_mono counts (by omega)
      have hble2 : sumBelow counts b ≤ sumBelow counts (b + 1) :=
        sumBelow_mono counts (Nat.le_succ b)
      have hSsucc : sumBelow counts (b + 1) = sumBelow counts b + counts b := rfl
      have hdrop : (l.drop (sumBelow counts (T - 1))).countP (fun x => key x == b) = 0 := by
        omega
      have hmemdrop : l.get ⟨i, h⟩ ∈ l.drop (sumBelow counts (T - 1)) := by
        have harith : sumBelow counts (T - 1) + (i - sumBelow counts (T - 1)) = i := by omega
        have hopt : (l.drop (sumBelow counts (T - 1)))[i - sumBelow counts (T - 1)]? =
            some (l.get ⟨i, h⟩) := by
          rw [List.getElem?_drop, harith, List.getElem?_eq_getElem h, List.get_eq_getElem]
        exact List.getElem?_mem hopt
      have := List.countP_eq_zero.mp hdrop _ hmemdrop
      simp at this
      exact this rfl
    refine ⟨?_, ?_⟩
    · rw [hlast]; exact h'
    · rw [hlast]
      have : T - 1 + 1 = T := by omega
      rw [this, htot, ← hlen0]
      exact h

/-- Canonical placement of the whole array gives monotone bucket keys. -/
theorem monotone_of_prefixSorted_full {α : Type} (key : α → ℕ) (counts : ℕ → ℕ)
    (l : List α) (hps : prefixSorted key counts l l.length) :
    ∀ (i j : ℕ) (hi : i < l.length) (hj : j < l.length), i < j →
      key (l.get ⟨i, hi⟩) ≤ key (l.get ⟨j, hj⟩) := by
  intro i j hi hj hij
  obtain ⟨hi1, hi2⟩ := hps i hi hi
  obtain ⟨hj1, hj2⟩ := hps j hj hj
  by_contra hgt
  have hlt : key (l.get ⟨j, hj⟩) < key (l.get ⟨i, hi⟩) := by omega
  have := sumBelow_mono counts (show key (l.get ⟨j, hj⟩) + 1 ≤ key (l.get ⟨i, hi⟩) from hlt)
  omega

/- ### A pass over an already partitioned array performs no swap -/

theorem sumBelow_congr {f g : ℕ → ℕ} (h : ∀ i, f i = g i) :
    ∀ n, sumBelow f n = sumBelow g n := by
  intro n
  induction n with
  | zero => rfl
  | succ n ih => rw [sumBelow, sumBelow, ih, h n]

theorem prefixSorted_congr {α : Type} (key : α → ℕ) {c1 c2 : ℕ → ℕ}
    (h : ∀ b, c1 b = c2 b) (l : List α) (m : ℕ)
    (hps : prefixSorted key c1 l m) : prefixSorted key c2 l m := by
  intro i hi him
  obtain ⟨h1, h2⟩ := hps i hi him
  exact ⟨by rw [← sumBelow_congr h]; exact h1, by rw [← sumBelow_congr h]; exact h2⟩

theorem bucketPass_noop {α : Type} (key : α → ℕ) (counts : ℕ → ℕ) (c : ℕ) :
    ∀ (fuel : ℕ) (l : List α) (leftB rightB swaps : ℕ),
    sumBelow counts (c + 1) - leftB ≤ fuel →
    sumBelow counts (c + 1) ≤ l.length →
    sumBelow counts c ≤ leftB →
    leftB ≤ sumBelow counts (c + 1) →
    prefixSorted key counts l l.length →
    bucketPass key c (sumBelow counts (c + 1)) l leftB rightB swaps =
      some (l, sumBelow counts (c + 1), swaps) := by
  intro fuel
  induction fuel with
  | zero =>
    intro l leftB rightB swaps hfuel hlen h1 h2 hps
    have heq : leftB = sumBelow counts (c + 1) := by omega
    subst heq
    exact bucketPass_stop key c _ l _ rightB swaps (lt_irrefl _)
  | succ fuel ih =>
    intro l leftB rightB swaps hfuel hlen h1 h2 hps
    by_cases hlt : leftB < sumBelow counts (c + 1)
    · have hleftlen : leftB < l.length := lt_of_lt_of_le hlt hlen
      have hx : l[leftB]? = some (l.get ⟨leftB, hleftlen⟩) := by
        rw [List.getElem?_eq_getElem hleftlen, List.get_eq_getElem]
      obtain ⟨hb1, hb2⟩ := hps leftB hleftlen hleftlen
      have hkx : key (l.get ⟨leftB, hleftlen⟩) = c :=
        bucket_unique counts hb1 hb2 h1 hlt
      rw [bucketPass_hit key c _ l leftB rightB swaps _ hlt hx hkx]
      exact ih l (leftB + 1) rightB swaps (by omega) hlen (by omega) (by omega) hps
    · have heq : leftB = sumBelow counts (c + 1) := by omega
      subst heq
      exact bucketPass_stop key c _ l _ rightB swaps (lt_irrefl _)

theorem bucketLoop_noop {α : Type} (key : α → ℕ) (counts : ℕ → ℕ) (l : List α)
    (hc : ∀ b, l.countP (fun x => key x == b) = counts b)
    (hps : prefixSorted key counts l l.length) (maxIdx : ℕ) :
    ∀ (k c0 swaps : ℕ),
    bucketLoop key counts maxIdx k c0 l (sumBelow counts c0) (sumBelow counts c0) swaps =
      some (l, swaps) := by
  intro k
  induction k with
  | zero => intro c0 swaps; rfl
  | succ k ih =>
    intro c0 swaps
    have hB' : sumBelow counts c0 + counts c0 = sumBelow counts (c0 + 1) := rfl
    have hlenS : sumBelow counts (c0 + 1) ≤ l.length :=
      sumBelow_counts_le_length key counts l hc (c0 + 1)
    have hpass := bucketPass_noop key counts c0 (sumBelow counts (c0 + 1)) l
      (sumBelow counts c0) maxIdx swaps (by omega) hlenS (Nat.le_refl _)
      (sumBelow_mono counts (Nat.le_succ c0)) hps
    rw [bucketLoop, hB', hpass]
    exact ih (c0 + 1) swaps

/- ### Claim-level notions and the bundled partitioner theorem -/

/-- The array is correctly partitioned: every record sits inside the index
range of its own bucket, ranges being the prefix sums of the array's own
bucket counts. -/
def canonicalLayout {α : Type} (key : α → ℕ) (l : List α) : Prop :=
  prefixSorted key (fun b => l.countP (fun x => key x == b)) l l.length

/-- Bundled correctness of `sortParticlesByHash`: the sort completes, the
result is a permutation of the input, every record ends inside its own
bucket's range (hence keys are monotone), the counters are those of the
counting pass, and an already partitioned input is returned unchanged with
zero swaps. -/
theorem sortParticlesByHash_main {α κ : Type} (RANK DEVICE GDN : κ → ℕ)
    (mpi_rank : ℕ) (multi_node : Bool) (devKey : α → κ) (totDevices : ℕ)
    (l : List α) (htot : 1 ≤ totDevices)
    (hkey : ∀ x ∈ l, GDN (devKey x) < totDevices) :
    ∃ out : SortOutcome α,
      sortParticlesByHash RANK DEVICE GDN mpi_rank multi_node devKey totDevices l =
        some out ∧
      out.sorted.Perm l ∧
      canonicalLayout (fun x => GDN (devKey x)) out.sorted ∧
      (∀ (i j : ℕ) (hi : i < out.sorted.length) (hj : j < out.sorted.length), i < j →
        GDN (devKey (out.sorted.get ⟨i, hi⟩)) ≤ GDN (devKey (out.sorted.get ⟨j, hj⟩))) ∧
      out.counters = countPass RANK DEVICE GDN mpi_rank devKey l ∧
      (canonicalLayout (fun x => GDN (devKey x)) l → out.sorted = l ∧ out.swaps = 0) := by
  set key : α → ℕ := fun x => GDN (devKey x) with hkeydef
  set counts : ℕ → ℕ :=
    (countPass RANK DEVICE GDN mpi_rank devKey l).particlesPerGlobalDevice with hcountsdef
  have hc : ∀ b, l.countP (fun x => key x == b) = counts b := by
    intro b
    rw [hcountsdef, countPass_particlesPerGlobalDevice]
  have hps0 : prefixSorted key counts l (sumBelow counts 0) := by
    intro i hi him
    exact absurd him (by simp [sumBelow])
  obtain ⟨l2, swaps2, hloop, hperm2, hps2⟩ :=
    bucketLoop_spec key counts l hc (totDevices - 1) 0 l 0 (List.Perm.refl l) hps0
  have hS0 : sumBelow counts 0 = 0 := rfl
  rw [hS0] at hloop
  have hkey2 : ∀ x ∈ l, key x < totDevices := hkey
  have hfull : prefixSorted key counts l2 l2.length := by
    refine prefixSorted_full key counts l2 l hperm2 hc totDevices htot hkey2 ?_
    have : (0 : ℕ) + (totDevices - 1) = totDevices - 1 := by omega
    rw [this] at hps2
    exact hps2
  refine ⟨⟨countPass RANK DEVICE GDN mpi_rank devKey l,
      s_hStartPerDeviceCalc multi_node mpi_rank
        (countPass RANK DEVICE GDN mpi_rank devKey l), l2, swaps2⟩, ?_, hperm2, ?_, ?_, rfl, ?_⟩
  · simp only [sortParticlesByHash]
    rw [← hkeydef, ← hcountsdef, hloop]
  · have hc2 : ∀ b, counts b = l2.countP (fun x => key x == b) := by
      intro b
      rw [← hc b, hperm2.countP_eq]
    exact prefixSorted_congr key hc2 l2 l2.length hfull
  · exact monotone_of_prefixSorted_full key counts l2 hfull
  · intro hcanon
    have hpsl : prefixSorted key counts l l.length := by
      refine prefixSorted_congr key ?_ l l.length hcanon
      intro b; exact hc b
    have hnoop := bucketLoop_noop key counts l hc hpsl (l.length - 1) (totDevices - 1) 0
    rw [hS0] at hnoop
    rw [hnoop] at hloop
    have h1 := Option.some_injective _ hloop
    have h2 : l = l2 := congrArg Prod.fst h1
    have h3 : (0 : ℕ) = swaps2 := congrArg Prod.snd h1
    exact ⟨h2.symm, h3.symm⟩

/- ## Claim theorems for the partitioner -/

/-- C1: for every particle array and every cell-to-device map, after
`sortParticlesByHash` returns, the device keys of the particle array are
monotonically non-decreasing (for indices `i < j`,
`bucket(i) ≤ bucket(j)`), and for every device `d` the per-device count
`s_hPartsPerDevice[d]` equals the number of particles whose cell the
device map assigns to (local) device `d`, computed independently of the
sort. -/
theorem partitioner_correct {α κ : Type} (RANK DEVICE GDN : κ → ℕ)
    (mpi_rank : ℕ) (multi_node : Bool) (devKey : α → κ) (totDevices : ℕ)
    (l : List α) (htot : 1 ≤ totDevices)
    (hkey : ∀ x ∈ l, GDN (devKey x) < totDevices) :
    ∃ out : SortOutcome α,
      sortParticlesByHash RANK DEVICE GDN mpi_rank multi_node devKey totDevices l =
        some out ∧
      (∀ (i j : ℕ) (hi : i < out.sorted.length) (hj : j < out.sorted.length), i < j →
        GDN (devKey (out.sorted.get ⟨i, hi⟩)) ≤ GDN (devKey (out.sorted.get ⟨j, hj⟩))) ∧
      (∀ d : ℕ, out.counters.s_hPartsPerDevice d =
        (l.filter (fun x => RANK (devKey x) == mpi_rank && DEVICE (devKey x) == d)).length) := by
  obtain ⟨out, hrun, hperm, hcanon, hmono, hcnt, hnoop⟩ :=
    sortParticlesByHash_main RANK DEVICE GDN mpi_rank multi_node devKey totDevices l
      htot hkey
  refine ⟨out, hrun, hmono, ?_⟩
  intro d
  rw [hcnt, countPass_s_hPartsPerDevice, List.countP_eq_length_filter]

/-- Witness for C1: a four-particle array over three global devices (one
per-node device map sending key `k` to device `k`). -/
theorem partitioner_correct_witness :
    (1 ≤ 3 ∧ ∀ x ∈ [2, 0, 1, 0], id (id x) < 3) ∧
    ∃ out : SortOutcome ℕ,
      sortParticlesByHash (fun _ => 0) id id 0 false id 3 [2, 0, 1, 0] = some out ∧
      (∀ (i j : ℕ) (hi : i < out.sorted.length) (hj : j < out.sorted.length), i < j →
        id (id (out.sorted.get ⟨i, hi⟩)) ≤ id (id (out.sorted.get ⟨j, hj⟩))) ∧
      (∀ d : ℕ, out.counters.s_hPartsPerDevice d =
        (List.filter (fun x => (fun _ => 0) (id x) == 0 && id (id x) == d)
          [2, 0, 1, 0]).length) :=
  ⟨⟨by decide, by decide⟩,
    partitioner_correct (fun _ => 0) id id 0 false id 3 [2, 0, 1, 0] (by decide) (by decide)⟩

/-- C6: partitioning an already correctly partitioned array is a no-op
(zero swaps and the array unchanged); and after one pass on any input —
including inputs with empty buckets and the single-bucket (single-device)
input — bucket membership (`canonicalLayout`) and monotonic bucket
ordering hold across the whole array. -/
theorem partitioner_idempotent {α κ : Type} (RANK DEVICE GDN : κ → ℕ)
    (mpi_rank : ℕ) (multi_node : Bool) (devKey : α → κ) (totDevices : ℕ)
    (l : List α) (htot : 1 ≤ totDevices)
    (hkey : ∀ x ∈ l, GDN (devKey x) < totDevices) :
    ∃ out : SortOutcome α,
      sortParticlesByHash RANK DEVICE GDN mpi_rank multi_node devKey totDevices l =
        some out ∧
      out.sorted.Perm l ∧
      canonicalLayout (fun x => GDN (devKey x)) out.sorted ∧
      (∀ (i j : ℕ) (hi : i < out.sorted.length) (hj : j < out.sorted.length), i < j →
        GDN (devKey (out.sorted.get ⟨i, hi⟩)) ≤ GDN (devKey (out.sorted.get ⟨j, hj⟩))) ∧
      (canonicalLayout (fun x => GDN (devKey x)) l → out.sorted = l ∧ out.swaps = 0) := by
  obtain ⟨out, hrun, hperm, hcanon, hmono, hcnt, hnoop⟩ :=
    sortParticlesByHash_main RANK DEVICE GDN mpi_rank multi_node devKey totDevices l
      htot hkey
  exact ⟨out, hrun, hperm, hcanon, hmono, hnoop⟩

/-- Witness for C6: a single-bucket (single-device) input, exercising also
the empty tail buckets. -/
theorem partitioner_idempotent_witness :
    (1 ≤ 1 ∧ ∀ x ∈ [5, 7, 7], (fun _ => 0) (id x) < 1) ∧
    ∃ out : SortOutcome ℕ,
      sortParticlesByHash (fun _ => 0) id (fun _ => 0) 0 false id 1 [5, 7, 7] = some out ∧
      out.sorted.Perm [5, 7, 7] ∧
      canonicalLayout (fun x => (fun _ => 0) (id x)) out.sorted ∧
      (∀ (i j : ℕ) (hi : i < out.sorted.length) (hj : j < out.sorted.length), i < j →
        (fun _ => 0) (id (out.sorted.get ⟨i, hi⟩)) ≤ (fun _ => 0) (id (out.sorted.get ⟨j, hj⟩))) ∧
      (canonicalLayout (fun x => (fun _ => 0) (id x)) [5, 7, 7] →
        out.sorted = [5, 7, 7] ∧ out.swaps = 0) :=
  ⟨⟨by decide, by decide⟩,
    partitioner_idempotent (fun _ => 0) id (fun _ => 0) 0 false id 1 [5, 7, 7]
      (by decide) (by decide)⟩

/-- C5 (evaluation at the failing input): when the counts claim bucket 0
is non-empty (`nextBucketBeginsAt = 1`) but no record of bucket 0 exists,
the right-cursor scan runs off the array.  The embedded code produces the
undefined-behaviour marker `none` — in the C code `rightB--` wraps the
unsigned index below zero and the scan reads out of bounds — it does NOT
throw, although the comment above the swap ("We should throw an error if
it happens") and the spec say it should. -/
theorem partitioner_scan_failure_no_throw :
    bucketPass (fun k : ℕ => k) 0 1 [1] 0 0 0 = none := by
  have h1 : ([1] : List ℕ)[0]? = some 1 := rfl
  have h2 : scanRight (fun k : ℕ => k) ([1] : List ℕ) 0 0 = none := rfl
  exact bucketPass_scan_none (fun k : ℕ => k) 0 1 [1] 0 0 0 1 (by omega) h1 (by decide) h2

/- ## Command dispatcher: `GPUSPH::doCommand` -/

/-- Observable actions of `doCommand`, in program order. -/
inductive DispatchEv (Cmd : Type) where
  | setNextCommand (c : Cmd)
  | setCommandFlags (f : ℕ)
  | setExtraCommandArg (a : ℚ)
  | barrier
deriving DecidableEq

/-- Test for the barrier action (used to count barrier calls). -/
def DispatchEv.isBarrier {Cmd : Type} : DispatchEv Cmd → Bool
  | DispatchEv.barrier => true
  | _ => false

/-- The aborted-run condition: `runtime_error("GPUSPH aborted by worker thread")`. -/
inductive RunAbort where
  | abortedByWorkerThread
deriving DecidableEq

/-- The shared fields `doCommand` touches. -/
structure DispatcherData (Cmd : Type) where
  nextCommand : Cmd
  commandFlags : ℕ
  extraCommandArg : ℚ
  keep_going : Bool
deriving DecidableEq

/-- Model of `GPUSPH::doCommand(cmd, flags, arg)`: write `nextCommand`,
`commandFlags` and `extraCommandArg` into shared state, call
`threadSynchronizer->barrier()` twice (the workers execute the posted
command between the two barriers, and a failing worker clears
`keep_going` before the second barrier releases — `workerFailed` is that
external event), then inspect `keep_going` and throw when it is false.
Returns the final shared state, the trace of observable actions and the
normal/thrown outcome. -/
def doCommand {Cmd : Type} (gdata : DispatcherData Cmd) (cmd : Cmd) (flags : ℕ)
    (arg : ℚ) (workerFailed : Bool) :
    DispatcherData Cmd × List (DispatchEv Cmd) × Except RunAbort Unit :=
  let g1 := { gdata with nextCommand := cmd }
  let g2 := { g1 with commandFlags := flags }
  let g3 := { g2 with extraCommandArg := arg }
  let g4 := if workerFailed then { g3 with keep_going := false } else g3
  let trace := [DispatchEv.setNextCommand cmd, DispatchEv.setCommandFlags flags,
    DispatchEv.setExtraCommandArg arg, DispatchEv.barrier, DispatchEv.barrier]
  if g4.keep_going then (g4, trace, Except.ok ()) else
    (g4, trace, Except.error RunAbort.abortedByWorkerThread)

/-- C2: every call to `doCommand(cmd, flags, arg)` first writes the
command kind, flag set and scalar argument into shared state, then
performs exactly two barrier calls; after the second barrier it inspects
`keep_going`, and if the flag is false it throws the aborted-run condition
instead of returning normally — `doCommand` never returns normally after a
worker has failed. -/
theorem doCommand_protocol {Cmd : Type} (gdata : DispatcherData Cmd) (cmd : Cmd)
    (flags : ℕ) (arg : ℚ) (workerFailed : Bool) :
    (doCommand gdata cmd flags arg workerFailed).2.1 =
      [DispatchEv.setNextCommand cmd, DispatchEv.setCommandFlags flags,
       DispatchEv.setExtraCommandArg arg, DispatchEv.barrier, DispatchEv.barrier] ∧
    ((doCommand gdata cmd flags arg workerFailed).2.1.countP DispatchEv.isBarrier = 2) ∧
    (doCommand gdata cmd flags arg workerFailed).1.nextCommand = cmd ∧
    (doCommand gdata cmd flags arg workerFailed).1.commandFlags = flags ∧
    (doCommand gdata cmd flags arg workerFailed).1.extraCommandArg = arg ∧
    ((doCommand gdata cmd flags arg workerFailed).2.2 = Except.ok () ↔
      (doCommand gdata cmd flags arg workerFailed).1.keep_going = true) ∧
    (workerFailed = true →
      (doCommand gdata cmd flags arg workerFailed).2.2 =
        Except.error RunAbort.abortedByWorkerThread) := by
  unfold doCommand
  cases workerFailed with
  | false =>
    cases h : gdata.keep_going with
    | false => simp [h, List.countP_cons, DispatchEv.isBarrier]
    | true => simp [h, List.countP_cons, DispatchEv.isBarrier]
  | true => simp [List.countP_cons, DispatchEv.isBarrier]

/- ## Simulation loop: failure semantics of `GPUSPH::runSimulation`
(`while (gdata->keep_going) try { ... } catch (exception) { ... }`) -/

/-- The body of the simulation loop as a nested conditional command
sequence: `doCommand` calls under `if`s (filters, Grenier/SPS blocks,
multi-device updates, ...). -/
inductive CmdScript (Cmd : Type) where
  | skip
  | emit (c : Cmd)
  | seq (a b : CmdScript Cmd)
  | branch (cond : Bool) (a b : CmdScript Cmd)

/-- The loop-level state: the liveness flag, whether
`threadSynchronizer->forceUnlock()` was called, whether the exception was
logged (`cerr << e.what()`), and the sequence of commands posted so far. -/
structure LoopState (Cmd : Type) where
  keep_going : Bool
  forceUnlocked : Bool
  logged : Bool
  issued : List Cmd
deriving DecidableEq

/-- One `doCommand` call as seen by the loop: the command is posted into
shared state and handed to the workers through the two barriers; a worker
failing while executing it (the `oracle`, indexed by the number of
commands posted so far) clears `keep_going`, which makes `doCommand`
throw after the second barrier.  Returns the new state and whether the
call returned normally. -/
def issueOne {Cmd : Type} (oracle : ℕ → Bool) (st : LoopState Cmd) (c : Cmd) :
    LoopState Cmd × Bool :=
  let st1 := { st with issued := st.issued ++ [c] }
  let st2 := if oracle st.issued.length then { st1 with keep_going := false } else st1
  (st2, st2.keep_going)

/-- Run a nested conditional command sequence; a thrown `doCommand`
aborts the rest of the body (exception propagation out of every enclosing
conditional). -/
def runScript {Cmd : Type} (oracle : ℕ → Bool) :
    CmdScript Cmd → LoopState Cmd → LoopState Cmd × Bool
  | CmdScript.skip, st => (st, true)
  | CmdScript.emit c, st => issueOne oracle st c
  | CmdScript.seq a b, st =>
    match runScript oracle a st with
    | (st1, true) => runScript oracle b st1
    | (st1, false) => (st1, false)
  | CmdScript.branch cond a b, st =>
    if cond then runScript oracle a st else runScript oracle b st

/-- Termination condition `we_are_done` of the simulation loop (model finished, iteration cap
reached, or an explicit quit request). -/
def weAreDone (finished maxiter_reached quit_request : Bool) : Bool :=
  finished || maxiter_reached || quit_request

/-- Model of the `while (gdata->keep_going) try { body } catch (exception& e)
{ cerr << e.what(); keep_going = false; forceUnlock(); }` loop of
`runSimulation`, with the per-iteration command issuing abstracted as a
`CmdScript` and the iteration-end completion check as `done`. -/
def runSimulationLoop {Cmd : Type} (oracle : ℕ → Bool) (body : CmdScript Cmd)
    (done : ℕ → Bool) : ℕ → ℕ → LoopState Cmd → LoopState Cmd
  | 0, _, st => st
  | fuel + 1, iter, st =>
    if st.keep_going then
      match runScript oracle body st with
      | (st1, true) =>
        runSimulationLoop oracle body done fuel (iter + 1)
          (if done iter then { st1 with keep_going := false } else st1)
      | (st1, false) =>
        runSimulationLoop oracle body done fuel (iter + 1)
          { st1 with keep_going := false, logged := true, forceUnlocked := true }
    else st

theorem runSimulationLoop_of_not_keep_going {Cmd : Type} (oracle : ℕ → Bool)
    (body : CmdScript Cmd) (done : ℕ → Bool) :
    ∀ (fuel iter : ℕ) (st : LoopState Cmd), st.keep_going = false →
    runSimulationLoop oracle body done fuel iter st = st := by
  intro fuel
  cases fuel with
  | zero => intro iter st h; rfl
  | succ fuel => intro iter st h; rw [runSimulationLoop, h]; simp

/-- C3: if an exception is raised while the loop body is issuing
commands, the loop catches it, clears `keep_going`, force-unlocks the
synchronizer and exits after logging; once `keep_going` is false no
further command is posted, even across nested conditional command
sequences (a later sequence appended to the failing body issues
nothing). -/
theorem runSimulation_failure_semantics {Cmd : Type} (oracle : ℕ → Bool)
    (body : CmdScript Cmd) (done : ℕ → Bool) (fuel iter : ℕ) (st : LoopState Cmd)
    (hkg : st.keep_going = true) (hthrow : (runScript oracle body st).2 = false) :
    runSimulationLoop oracle body done (fuel + 1) iter st =
      { (runScript oracle body st).1 with
          keep_going := false, logged := true, forceUnlocked := true } ∧
    (runSimulationLoop oracle body done (fuel + 1) iter st).issued =
      ((runScript oracle body st).1).issued ∧
    (runSimulationLoop oracle body done (fuel + 1) iter st).keep_going = false ∧
    (runSimulationLoop oracle body done (fuel + 1) iter st).forceUnlocked = true ∧
    (runSimulationLoop oracle body done (fuel + 1) iter st).logged = true ∧
    (∀ rest : CmdScript Cmd,
      runScript oracle (CmdScript.seq body rest) st = ((runScript oracle body st).1, false)) := by
  have hstep : runSimulationLoop oracle body done (fuel + 1) iter st =
      { (runScript oracle body st).1 with
          keep_going := false, logged := true, forceUnlocked := true } := by
    rw [runSimulationLoop, hkg]
    simp only [if_true]
    rcases hsc : runScript oracle body st with ⟨st1, ok⟩
    rw [hsc] at hthrow
    simp at hthrow
    subst hthrow
    exact runSimulationLoop_of_not_keep_going oracle body done fuel (iter + 1) _ rfl
  refine ⟨hstep, by rw [hstep], by rw [hstep], by rw [hstep], by rw [hstep], ?_⟩
  intro rest
  rw [runScript]
  rcases hsc : runScript oracle body st with ⟨st1, ok⟩
  rw [hsc] at hthrow
  simp at hthrow
  subst hthrow
  rfl

/-- Witness for C3: a two-command body whose first command fails. -/
theorem runSimulation_failure_semantics_witness :
    (({ keep_going := true, forceUnlocked := false, logged := false,
        issued := [] } : LoopState ℕ).keep_going = true ∧
      (runScript (fun n => n == 0)
        (CmdScript.seq (CmdScript.emit 10) (CmdScript.emit 11))
        { keep_going := true, forceUnlocked := false, logged := false,
          issued := [] }).2 = false) ∧
    (runSimulationLoop (fun n => n == 0)
        (CmdScript.seq (CmdScript.emit 10) (CmdScript.emit 11)) (fun _ => false) 3 0
        { keep_going := true, forceUnlocked := false, logged := false, issued := [] } =
      { (runScript (fun n => n == 0)
          (CmdScript.seq (CmdScript.emit 10) (CmdScript.emit 11))
          { keep_going := true, forceUnlocked := false, logged := false,
            issued := [] }).1 with
          keep_going := false, logged := true, forceUnlocked := true } ∧
      (runSimulationLoop (fun n => n == 0)
        (CmdScript.seq (CmdScript.emit 10) (CmdScript.emit 11)) (fun _ => false) 3 0
        { keep_going := true, forceUnlocked := false, logged := false,
          issued := [] }).issued =
        ((runScript (fun n => n == 0)
          (CmdScript.seq (CmdScript.emit 10) (CmdScript.emit 11))
          { keep_going := true, forceUnlocked := false, logged := false,
            issued := [] }).1).issued ∧
      (runSimulationLoop (fun n => n == 0)
        (CmdScript.seq (CmdScript.emit 10) (CmdScript.emit 11)) (fun _ => false) 3 0
        { keep_going := true, forceUnlocked := false, logged := false,
          issued := [] }).keep_going = false ∧
      (runSimulationLoop (fun n => n == 0)
        (CmdScript.seq (CmdScript.emit 10) (CmdScript.emit 11)) (fun _ => false) 3 0
        { keep_going := true, forceUnlocked := false, logged := false,
          issued := [] }).forceUnlocked = true ∧
      (runSimulationLoop (fun n => n == 0)
        (CmdScript.seq (CmdScript.emit 10) (CmdScript.emit 11)) (fun _ => false) 3 0
        { keep_going := true, forceUnlocked := false, logged := false,
          issued := [] }).logged = true ∧
      (∀ rest : CmdScript ℕ,
        runScript (fun n => n == 0)
          (CmdScript.seq (CmdScript.seq (CmdScript.emit 10) (CmdScript.emit 11)) rest)
          { keep_going := true, forceUnlocked := false, logged := false, issued := [] } =
          ((runScript (fun n => n == 0)
            (CmdScript.seq (CmdScript.emit 10) (CmdScript.emit 11))
            { keep_going := true, forceUnlocked := false, logged := false,
              issued := [] }).1, false))) :=
  ⟨⟨rfl, by decide⟩,
    runSimulation_failure_semantics (fun n => n == 0)
      (CmdScript.seq (CmdScript.emit 10) (CmdScript.emit 11)) (fun _ => false) 2 0
      { keep_going := true, forceUnlocked := false, logged := false, issued := [] }
      rfl (by decide)⟩

/- ## Simulation loop: end-of-iteration timestep guards

`runSimulation` advances `t += dt`, recomputes the adaptive `dt`, and then
runs two guards before evaluating `we_are_done`.  The floating-point
addition itself is not modelled: the advanced time `t_new` and the
recomputed timestep `dt_new` are inputs of the guard block. -/

/-- Machine epsilon `FLT_EPSILON` (2^-23), the threshold of the
`gdata->dt < FLT_EPSILON` guard. -/
def FLT_EPSILON : ℚ := 1 / 8388608

/-- What the end-of-iteration code prints. -/
inductive IterLog where
  | dtUnderEpsilon   -- "FATAL: timestep %g under machine epsilon ... - requesting quit"
  | timeStill        -- "FATAL: timestep %g too small ..., time is still - requesting quit"
  | exceptionWhat    -- the loop's catch block: cerr << e.what()
deriving DecidableEq

/-- Exception `DtZeroException(t, dt)`. -/
structure DtZeroException where
  t : ℚ
  dt : ℚ
deriving DecidableEq

/-- Outcome of the guard block when no exception is thrown. -/
structure EndIterResult where
  quit_request : Bool
  we_are_done : Bool
  logs : List IterLog
deriving DecidableEq

/-- Model of lines `// check that dt is not too small` through
`we_are_done = ...` of `runSimulation`: `if (!t) throw DtZeroException`,
`else if (dt < FLT_EPSILON) { log; quit_request = true; }`, then
`if (t == previous_t) { log; quit_request = true; }`, then
`we_are_done = finished || maxiter_reached || quit_request` (the two
sequential `quit_request = true` updates are written as one nested
conditional). -/
def endOfIteration (previous_t t_new dt_new : ℚ)
    (quit0 finished maxiter_reached : Bool) :
    Except DtZeroException EndIterResult :=
  if t_new = 0 then Except.error ⟨t_new, dt_new⟩
  else
    Except.ok
      { quit_request :=
          if t_new = previous_t then true
          else if dt_new < FLT_EPSILON then true else quit0
        we_are_done :=
          weAreDone finished maxiter_reached
            (if t_new = previous_t then true
             else if dt_new < FLT_EPSILON then true else quit0)
        logs :=
          (if dt_new < FLT_EPSILON then [IterLog.dtUnderEpsilon] else []) ++
            (if t_new = previous_t then [IterLog.timeStill] else []) }

/-- The loop-level effect of one iteration end: on a normal outcome
`keep_going` is cleared exactly when `we_are_done`; a thrown
`DtZeroException` lands in the loop's catch block (log `e.what()`, clear
`keep_going`, force-unlock). -/
def iterationEndState (previous_t t_new dt_new : ℚ)
    (quit0 finished maxiter_reached : Bool) : Bool × Bool × List IterLog :=
  match endOfIteration previous_t t_new dt_new quit0 finished maxiter_reached with
  | Except.ok r => (!r.we_are_done, false, r.logs)
  | Except.error _ => (false, true, [IterLog.exceptionWhat])

/-- C4: at the end of an iteration, if the advanced time equals the
previous time (no forward progress) or the recomputed timestep is below
machine epsilon, the loop requests termination within that same iteration:
when no exception is thrown, `quit_request` and hence the termination
condition `we_are_done` become true; in every case `keep_going` is false
afterwards (no further iteration starts) and the condition is logged, not
silently ignored. -/
theorem timestep_guards (previous_t t_new dt_new : ℚ)
    (quit0 finished maxiter_reached : Bool)
    (h : t_new = previous_t ∨ dt_new < FLT_EPSILON) :
    (iterationEndState previous_t t_new dt_new quit0 finished maxiter_reached).1 = false ∧
    (iterationEndState previous_t t_new dt_new quit0 finished maxiter_reached).2.2 ≠ [] ∧
    (∀ r, endOfIteration previous_t t_new dt_new quit0 finished maxiter_reached =
      Except.ok r → r.quit_request = true ∧ r.we_are_done = true) := by
  by_cases hz : t_new = 0
  · refine ⟨?_, ?_, ?_⟩
    · unfold iterationEndState endOfIteration
      simp [hz]
    · unfold iterationEndState endOfIteration
      simp [hz]
    · intro r hr
      unfold endOfIteration at hr
      simp [hz] at hr
  · have hq : (if t_new = previous_t then true
        else if dt_new < FLT_EPSILON then true else quit0) = true := by
      rcases h with h | h
      · simp [h]
      · by_cases ht : t_new = previous_t
        · simp [ht]
        · simp [ht, h]
    have hlogs : ((if dt_new < FLT_EPSILON then [IterLog.dtUnderEpsilon] else []) ++
        (if t_new = previous_t then [IterLog.timeStill] else [])) ≠ [] := by
      rcases h with h | h
      · simp [h]
      · simp [h]
    have hwd : weAreDone finished maxiter_reached
        (if t_new = previous_t then true
         else if dt_new < FLT_EPSILON then true else quit0) = true := by
      rw [hq]; simp [weAreDone]
    refine ⟨?_, ?_, ?_⟩
    · unfold iterationEndState endOfIteration
      simp only [if_neg hz]
      show (!(weAreDone finished maxiter_reached
        (if t_new = previous_t then true
         else if dt_new < FLT_EPSILON then true else quit0))) = false
      rw [hwd]
      rfl
    · unfold iterationEndState endOfIteration
      simp only [if_neg hz]
      show ((if dt_new < FLT_EPSILON then [IterLog.dtUnderEpsilon] else []) ++
        (if t_new = previous_t then [IterLog.timeStill] else [])) ≠ []
      exact hlogs
    · intro r hr
      unfold endOfIteration at hr
      rw [if_neg hz] at hr
      injection hr with h2
      rw [← h2]
      exact ⟨hq, hwd⟩

/-- Witness for C4: time stuck at 1 with a stuck timestep. -/
theorem timestep_guards_witness :
    ((1 : ℚ) = 1 ∨ (1 : ℚ) < FLT_EPSILON) ∧
    ((iterationEndState 1 1 1 false false false).1 = false ∧
     (iterationEndState 1 1 1 false false false).2.2 ≠ [] ∧
     (∀ r, endOfIteration 1 1 1 false false false = Except.ok r →
       r.quit_request = true ∧ r.we_are_done = true)) :=
  ⟨Or.inl rfl, timestep_guards 1 1 1 false false false (Or.inl rfl)⟩

/- ## `GPUSPH::updateArrayIndices` -/

/-- Modelled from the spec: `MULTI_NODE` means the run spans more than one
process (node); the macro itself lives in a header that is not part of the
provided sources. -/
def MULTI_NODE (mpi_nodes : ℕ) : Bool := 1 < mpi_nodes

/-- Modelled from the spec: `SINGLE_NODE` is the negation of `MULTI_NODE`. -/
def SINGLE_NODE (mpi_nodes : ℕ) : Bool := !(MULTI_NODE mpi_nodes)

/-- What `updateArrayIndices` prints / issues. -/
inductive UaiEv where
  | warnParticleCountChanged (oldTot newTot : ℕ)
      -- "WARNING: at iteration %lu the number of particles changed from %u to %u for no known reason!"
  | dumpAndRollCall
      -- doCommand(DUMP, BUFFER_INFO | DBLBUFFER_READ); rollCallParticles()
  | fatalCapacityExceeded (processCount allocated : ℕ)
      -- "FATAL: Number of total particles ... exceeding allocated buffers ... Requesting immediate quit"
deriving DecidableEq

/-- The global fields `updateArrayIndices` reads and writes. -/
structure UaiState where
  s_hPartsPerDevice : ℕ → ℕ
  s_hStartPerDevice : ℕ → ℕ
  processParticles : ℕ → ℕ
  totParticles : ℕ
  quit_request : Bool

structure UaiResult where
  state : UaiState
  events : List UaiEv

/-- The `s_hStartPerDevice` recomputation of `updateArrayIndices`:
entry 0 is the sum of the previous nodes' counts, and each further entry
adds the previous device's count. -/
def uaiStart (pp parts : ℕ → ℕ) (mpi_rank : ℕ) : ℕ → ℕ
  | 0 => sumBelow pp mpi_rank
  | d + 1 => uaiStart pp parts mpi_rank d + parts d

/-- The reconciled node-count table after the (potential) all-gather:
`processParticles[mpi_rank] = processCount`, then, in multi-node runs,
replaced by the gathered per-node counts.  `gathered` is the result of
`networkManager->allGatherUints` — modelled from the spec:
`allGatherCounts(localCount) → per-node counts`. -/
def uaiProcessParticles (devices mpi_rank mpi_nodes : ℕ)
    (numInternal gathered : ℕ → ℕ) (st : UaiState) : ℕ → ℕ :=
  if MULTI_NODE mpi_nodes then gathered
  else fun n => if n = mpi_rank then sumBelow numInternal devices else st.processParticles n

/-- Value `newSimulationTotal`: the total of the reconciled per-node counts. -/
def reconciledTotal (devices mpi_rank mpi_nodes : ℕ)
    (numInternal gathered : ℕ → ℕ) (st : UaiState) : ℕ :=
  sumBelow (uaiProcessParticles devices mpi_rank mpi_nodes numInternal gathered st) mpi_nodes

/-- Model of `GPUSPH::updateArrayIndices`: refill `s_hPartsPerDevice[d]`
from each worker's `getNumInternalParticles()` (`numInternal`), recompute
the node count and the per-device start offsets, reconcile `totParticles`
(warning and, in single-node runs, a roll call on an unexplained change),
and request termination when the process count exceeds the allocated
capacity. -/
def updateArrayIndices (devices mpi_rank mpi_nodes : ℕ)
    (numInternal gathered : ℕ → ℕ) (inlet_outlet no_leak_warning : Bool)
    (allocatedParticles : ℕ) (st : UaiState) : UaiResult :=
  let parts : ℕ → ℕ := fun d => if d < devices then numInternal d else st.s_hPartsPerDevice d
  let processCount : ℕ := sumBelow numInternal devices
  let pp : ℕ → ℕ := uaiProcessParticles devices mpi_rank mpi_nodes numInternal gathered st
  let start : ℕ → ℕ := uaiStart pp parts mpi_rank
  let newSimulationTotal : ℕ := reconciledTotal devices mpi_rank mpi_nodes numInternal gathered st
  let res1 : ℕ × List UaiEv :=
    if mpi_rank = 0 ∨ inlet_outlet = true then
      if (newSimulationTotal < st.totParticles ∧ inlet_outlet = true) ∨
          (newSimulationTotal > st.totParticles ∧ inlet_outlet = true) then
        (newSimulationTotal, [])
      else if newSimulationTotal ≠ st.totParticles ∧ mpi_rank = 0 then
        if newSimulationTotal > st.totParticles ∨ no_leak_warning = false then
          (newSimulationTotal,
            UaiEv.warnParticleCountChanged st.totParticles newSimulationTotal ::
              (if SINGLE_NODE mpi_nodes = true then [UaiEv.dumpAndRollCall] else []))
        else
          (newSimulationTotal, [])
      else (st.totParticles, [])
    else (st.totParticles, [])
  let res2 : Bool × List UaiEv :=
    if processCount > allocatedParticles then
      (true, [UaiEv.fatalCapacityExceeded processCount allocatedParticles])
    else (st.quit_request, [])
  ⟨⟨parts, start, pp, res1.1, res2.1⟩, res1.2 ++ res2.2⟩

theorem uaiStart_total (pp parts numInternal : ℕ → ℕ) (mpi_rank : ℕ) :
    ∀ (n : ℕ), (∀ d, d < n → parts d = numInternal d) →
    uaiStart pp parts mpi_rank n = sumBelow pp mpi_rank + sumBelow numInternal n := by
  intro n
  induction n with
  | zero => intro _; rfl
  | succ n ih =>
    intro h
    rw [uaiStart, ih (fun d hd => h d (Nat.lt_succ_of_lt hd)), sumBelow,
      h n (Nat.lt_succ_self n)]
    omega

/-- C7: `updateArrayIndices` recomputes every per-device count from the
worker's ground truth (`getNumInternalParticles`), never by incremental
patching, and recomputes the start offsets as prefix sums (device 0's
offset is the previous nodes' total; device `d+1`'s offset is device `d`'s
offset plus device `d`'s count), so the per-device ranges are contiguous,
non-overlapping, ordered by device index, and their union covers exactly
the live particles of the local node. -/
theorem updateArrayIndices_recompute (devices mpi_rank mpi_nodes : ℕ)
    (numInternal gathered : ℕ → ℕ) (inlet_outlet no_leak_warning : Bool)
    (allocatedParticles : ℕ) (st : UaiState)
    (hg : MULTI_NODE mpi_nodes = true →
      gathered mpi_rank = sumBelow numInternal devices) :
    (∀ d, d < devices →
      (updateArrayIndices devices mpi_rank mpi_nodes numInternal gathered inlet_outlet
        no_leak_warning allocatedParticles st).state.s_hPartsPerDevice d = numInternal d) ∧
    (updateArrayIndices devices mpi_rank mpi_nodes numInternal gathered inlet_outlet
        no_leak_warning allocatedParticles st).state.s_hStartPerDevice 0 =
      sumBelow (updateArrayIndices devices mpi_rank mpi_nodes numInternal gathered
        inlet_outlet no_leak_warning allocatedParticles st).state.processParticles
        mpi_rank ∧
    (∀ d, (updateArrayIndices devices mpi_rank mpi_nodes numInternal gathered inlet_outlet
        no_leak_warning allocatedParticles st).state.s_hStartPerDevice (d + 1) =
      (updateArrayIndices devices mpi_rank mpi_nodes numInternal gathered inlet_outlet
        no_leak_warning allocatedParticles st).state.s_hStartPerDevice d +
      (updateArrayIndices devices mpi_rank mpi_nodes numInternal gathered inlet_outlet
        no_leak_warning allocatedParticles st).state.s_hPartsPerDevice d) ∧
    (updateArrayIndices devices mpi_rank mpi_nodes numInternal gathered inlet_outlet
        no_leak_warning allocatedParticles st).state.processParticles mpi_rank =
      sumBelow numInternal devices ∧
    (updateArrayIndices devices mpi_rank mpi_nodes numInternal gathered inlet_outlet
        no_leak_warning allocatedParticles st).state.s_hStartPerDevice devices =
      (updateArrayIndices devices mpi_rank mpi_nodes numInternal gathered inlet_outlet
        no_leak_warning allocatedParticles st).state.s_hStartPerDevice 0 +
      (updateArrayIndices devices mpi_rank mpi_nodes numInternal gathered inlet_outlet
        no_leak_warning allocatedParticles st).state.processParticles mpi_rank := by
  have hpp : (updateArrayIndices devices mpi_rank mpi_nodes numInternal gathered
      inlet_outlet no_leak_warning allocatedParticles st).state.processParticles mpi_rank =
      sumBelow numInternal devices := by
    unfold updateArrayIndices uaiProcessParticles
    cases hm : MULTI_NODE mpi_nodes with
    | true => simpa [hm] using hg hm
    | false => simp [hm]
  refine ⟨?_, rfl, fun d => rfl, hpp, ?_⟩
  · intro d hd
    unfold updateArrayIndices
    simp [hd]
  · rw [hpp]
    show uaiStart (uaiProcessParticles devices mpi_rank mpi_nodes numInternal gathered st)
        (fun d => if d < devices then numInternal d else st.s_hPartsPerDevice d)
        mpi_rank devices =
      uaiStart (uaiProcessParticles devices mpi_rank mpi_nodes numInternal gathered st)
        (fun d => if d < devices then numInternal d else st.s_hPartsPerDevice d)
        mpi_rank 0 + sumBelow numInternal devices
    rw [uaiStart_total _ _ numInternal mpi_rank devices (fun d hd => by simp [hd]),
      uaiStart]

/-- Witness for C7: two devices reporting 3 and 4 internal particles on a
single node. -/
theorem updateArrayIndices_recompute_witness :
    (MULTI_NODE 1 = true → (fun _ : ℕ => 0) 0 = sumBelow (fun d => d + 3) 2) ∧
    ((∀ d, d < 2 →
      (updateArrayIndices 2 0 1 (fun d => d + 3) (fun _ => 0) false false 100
        ⟨fun _ => 0, fun _ => 0, fun _ => 0, 7, false⟩).state.s_hPartsPerDevice d =
        d + 3) ∧
    (updateArrayIndices 2 0 1 (fun d => d + 3) (fun _ => 0) false false 100
        ⟨fun _ => 0, fun _ => 0, fun _ => 0, 7, false⟩).state.s_hStartPerDevice 0 =
      sumBelow (updateArrayIndices 2 0 1 (fun d => d + 3) (fun _ => 0) false false 100
        ⟨fun _ => 0, fun _ => 0, fun _ => 0, 7, false⟩).state.processParticles 0 ∧
    (∀ d, (updateArrayIndices 2 0 1 (fun d => d + 3) (fun _ => 0) false false 100
        ⟨fun _ => 0, fun _ => 0, fun _ => 0, 7, false⟩).state.s_hStartPerDevice (d + 1) =
      (updateArrayIndices 2 0 1 (fun d => d + 3) (fun _ => 0) false false 100
        ⟨fun _ => 0, fun _ => 0, fun _ => 0, 7, false⟩).state.s_hStartPerDevice d +
      (updateArrayIndices 2 0 1 (fun d => d + 3) (fun _ => 0) false false 100
        ⟨fun _ => 0, fun _ => 0, fun _ => 0, 7, false⟩).state.s_hPartsPerDevice d) ∧
    (updateArrayIndices 2 0 1 (fun d => d + 3) (fun _ => 0) false false 100
        ⟨fun _ => 0, fun _ => 0, fun _ => 0, 7, false⟩).state.processParticles 0 =
      sumBelow (fun d => d + 3) 2 ∧
    (updateArrayIndices 2 0 1 (fun d => d + 3) (fun _ => 0) false false 100
        ⟨fun _ => 0, fun _ => 0, fun _ => 0, 7, false⟩).state.s_hStartPerDevice 2 =
      (updateArrayIndices 2 0 1 (fun d => d + 3) (fun _ => 0) false false 100
        ⟨fun _ => 0, fun _ => 0, fun _ => 0, 7, false⟩).state.s_hStartPerDevice 0 +
      (updateArrayIndices 2 0 1 (fun d => d + 3) (fun _ => 0) false false 100
        ⟨fun _ => 0, fun _ => 0, fun _ => 0, 7, false⟩).state.processParticles 0) :=
  ⟨by decide,
    updateArrayIndices_recompute 2 0 1 (fun d => d + 3) (fun _ => 0) false false 100
      ⟨fun _ => 0, fun _ => 0, fun _ => 0, 7, false⟩ (by decide)⟩

/-- C8: if, after recomputing the counts, the process particle count
exceeds the allocated capacity, the condition is fatal: the event is
logged and the quit-request flag is set, which makes the loop's
termination condition (`we_are_done = finished || maxiter || quit_request`)
true. -/
theorem updateArrayIndices_capacity_fatal (devices mpi_rank mpi_nodes : ℕ)
    (numInternal gathered : ℕ → ℕ) (inlet_outlet no_leak_warning : Bool)
    (allocatedParticles : ℕ) (st : UaiState)
    (h : allocatedParticles < sumBelow numInternal devices) :
    (updateArrayIndices devices mpi_rank mpi_nodes numInternal gathered inlet_outlet
        no_leak_warning allocatedParticles st).state.quit_request = true ∧
    UaiEv.fatalCapacityExceeded (sumBelow numInternal devices) allocatedParticles ∈
      (updateArrayIndices devices mpi_rank mpi_nodes numInternal gathered inlet_outlet
        no_leak_warning allocatedParticles st).events ∧
    (∀ finished maxiter_reached : Bool,
      weAreDone finished maxiter_reached
        (updateArrayIndices devices mpi_rank mpi_nodes numInternal gathered inlet_outlet
          no_leak_warning allocatedParticles st).state.quit_request = true) := by
  have hq : (updateArrayIndices devices mpi_rank mpi_nodes numInternal gathered
      inlet_outlet no_leak_warning allocatedParticles st).state.quit_request = true := by
    unfold updateArrayIndices
    simp [h]
  refine ⟨hq, ?_, ?_⟩
  · unfold updateArrayIndices
    simp [h]
  · intro finished maxiter_reached
    rw [hq]
    simp [weAreDone]

/-- Witness for C8: one device reporting 5 particles against a capacity
of 3. -/
theorem updateArrayIndices_capacity_fatal_witness :
    3 < sumBelow (fun _ => 5) 1 ∧
    ((updateArrayIndices 1 0 1 (fun _ => 5) (fun _ => 0) false false 3
        ⟨fun _ => 0, fun _ => 0, fun _ => 5, 5, false⟩).state.quit_request = true ∧
    UaiEv.fatalCapacityExceeded (sumBelow (fun _ => 5) 1) 3 ∈
      (updateArrayIndices 1 0 1 (fun _ => 5) (fun _ => 0) false false 3
        ⟨fun _ => 0, fun _ => 0, fun _ => 5, 5, false⟩).events ∧
    (∀ finished maxiter_reached : Bool,
      weAreDone finished maxiter_reached
        (updateArrayIndices 1 0 1 (fun _ => 5) (fun _ => 0) false false 3
          ⟨fun _ => 0, fun _ => 0, fun _ => 5, 5, false⟩).state.quit_request = true)) :=
  ⟨by decide,
    updateArrayIndices_capacity_fatal 1 0 1 (fun _ => 5) (fun _ => 0) false false 3
      ⟨fun _ => 0, fun _ => 0, fun _ => 5, 5, false⟩ (by decide)⟩

/-- C9 counterexample: on the coordinator node, without open boundaries,
with the reconciled total smaller than the stored total (a particle leak)
and the `no_leak_warning` option set, NO warning is logged (the events
list is empty) although the reconciled total differs from the stored one —
yet the authoritative total is still updated.  This refutes the claim
that a warning is always logged in this situation. -/
theorem updateArrayIndices_drift_counterexample :
    reconciledTotal 1 0 1 (fun _ => 1) (fun _ => 0)
      ⟨fun _ => 0, fun _ => 0, fun _ => 2, 2, false⟩ = 1 ∧
    (⟨fun _ => 0, fun _ => 0, fun _ => 2, 2, false⟩ : UaiState).totParticles = 2 ∧
    (updateArrayIndices 1 0 1 (fun _ => 1) (fun _ => 0) false true 10
      ⟨fun _ => 0, fun _ => 0, fun _ => 2, 2, false⟩).events = [] ∧
    (updateArrayIndices 1 0 1 (fun _ => 1) (fun _ => 0) false true 10
      ⟨fun _ => 0, fun _ => 0, fun _ => 2, 2, false⟩).state.totParticles = 1 := by
  refine ⟨?_, rfl, ?_, ?_⟩
  · decide
  · unfold updateArrayIndices
    simp [reconciledTotal, uaiProcessParticles, MULTI_NODE, sumBelow]
  · unfold updateArrayIndices
    simp [reconciledTotal, uaiProcessParticles, MULTI_NODE, sumBelow]

/-- C9 (amended): when the reconciled total differs from the stored total
on the coordinator, open boundaries are not enabled and capacity is not
exceeded, the condition is diagnostic, not fatal: the quit flag is
untouched and the authoritative total is always updated to the reconciled
value, regardless of the direction of change; a warning is logged — and,
in single-node mode, a roll call performed — unless the total decreased
and the `no_leak_warning` option was passed (in which case the update is
silent). -/
theorem updateArrayIndices_drift_diagnostic (devices mpi_nodes : ℕ)
    (numInternal gathered : ℕ → ℕ) (no_leak_warning : Bool)
    (allocatedParticles : ℕ) (st : UaiState)
    (hneq : reconciledTotal devices 0 mpi_nodes numInternal gathered st ≠ st.totParticles)
    (hcap : sumBelow numInternal devices ≤ allocatedParticles) :
    (updateArrayIndices devices 0 mpi_nodes numInternal gathered false
        no_leak_warning allocatedParticles st).state.totParticles =
      reconciledTotal devices 0 mpi_nodes numInternal gathered st ∧
    (updateArrayIndices devices 0 mpi_nodes numInternal gathered false
        no_leak_warning allocatedParticles st).state.quit_request = st.quit_request ∧
    (UaiEv.warnParticleCountChanged st.totParticles
        (reconciledTotal devices 0 mpi_nodes numInternal gathered st) ∈
      (updateArrayIndices devices 0 mpi_nodes numInternal gathered false
        no_leak_warning allocatedParticles st).events ↔
      (st.totParticles < reconciledTotal devices 0 mpi_nodes numInternal gathered st ∨
        no_leak_warning = false)) ∧
    (UaiEv.dumpAndRollCall ∈
      (updateArrayIndices devices 0 mpi_nodes numInternal gathered false
        no_leak_warning allocatedParticles st).events ↔
      ((st.totParticles < reconciledTotal devices 0 mpi_nodes numInternal gathered st ∨
        no_leak_warning = false) ∧ SINGLE_NODE mpi_nodes = true)) := by
  have hcap' : ¬ sumBelow numInternal devices > allocatedParticles := by omega
  unfold updateArrayIndices
  simp only [hcap', if_false, if_neg hcap']
  by_cases hw : st.totParticles < reconciledTotal devices 0 mpi_nodes numInternal gathered st ∨
      no_leak_warning = false
  · have hw' : reconciledTotal devices 0 mpi_nodes numInternal gathered st >
        st.totParticles ∨ no_leak_warning = false := by
      rcases hw with h | h
      · exact Or.inl h
      · exact Or.inr h
    cases hsn : SINGLE_NODE mpi_nodes with
    | true => simp [hneq, hw, hw', hsn]
    | false => simp [hneq, hw, hw', hsn]
  · have hw' : ¬ (reconciledTotal devices 0 mpi_nodes numInternal gathered st >
        st.totParticles ∨ no_leak_warning = false) := by
      intro h
      apply hw
      rcases h with h | h
      · exact Or.inl h
      · exact Or.inr h
    simp [hneq, hw, hw']

/-- Witness for C9 (amended): a growth from 2 to 3 particles without open
boundaries on a single node (warning and roll call occur). -/
theorem updateArrayIndices_drift_diagnostic_witness :
    (reconciledTotal 1 0 1 (fun _ => 3) (fun _ => 0)
        ⟨fun _ => 0, fun _ => 0, fun _ => 2, 2, false⟩ ≠ 2 ∧
      sumBelow (fun _ => 3) 1 ≤ 10) ∧
    ((updateArrayIndices 1 0 1 (fun _ => 3) (fun _ => 0) false false 10
        ⟨fun _ => 0, fun _ => 0, fun _ => 2, 2, false⟩).state.totParticles =
      reconciledTotal 1 0 1 (fun _ => 3) (fun _ => 0)
        ⟨fun _ => 0, fun _ => 0, fun _ => 2, 2, false⟩ ∧
    (updateArrayIndices 1 0 1 (fun _ => 3) (fun _ => 0) false false 10
        ⟨fun _ => 0, fun _ => 0, fun _ => 2, 2, false⟩).state.quit_request =
      (⟨fun _ => 0, fun _ => 0, fun _ => 2, 2, false⟩ : UaiState).quit_request ∧
    (UaiEv.warnParticleCountChanged
        (⟨fun _ => 0, fun _ => 0, fun _ => 2, 2, false⟩ : UaiState).totParticles
        (reconciledTotal 1 0 1 (fun _ => 3) (fun _ => 0)
          ⟨fun _ => 0, fun _ => 0, fun _ => 2, 2, false⟩) ∈
      (updateArrayIndices 1 0 1 (fun _ => 3) (fun _ => 0) false false 10
        ⟨fun _ => 0, fun _ => 0, fun _ => 2, 2, false⟩).events ↔
      ((⟨fun _ => 0, fun _ => 0, fun _ => 2, 2, false⟩ : UaiState).totParticles <
          reconciledTotal 1 0 1 (fun _ => 3) (fun _ => 0)
            ⟨fun _ => 0, fun _ => 0, fun _ => 2, 2, false⟩ ∨
        false = false)) ∧
    (UaiEv.dumpAndRollCall ∈
      (updateArrayIndices 1 0 1 (fun _ => 3) (fun _ => 0) false false 10
        ⟨fun _ => 0, fun _ => 0, fun _ => 2, 2, false⟩).events ↔
      (((⟨fun _ => 0, fun _ => 0, fun _ => 2, 2, false⟩ : UaiState).totParticles <
          reconciledTotal 1 0 1 (fun _ => 3) (fun _ => 0)
            ⟨fun _ => 0, fun _ => 0, fun _ => 2, 2, false⟩ ∨
        false = false) ∧ SINGLE_NODE 1 = true))) :=
  ⟨⟨by decide, by decide⟩,
    updateArrayIndices_drift_diagnostic 1 1 (fun _ => 3) (fun _ => 0) false 10
      ⟨fun _ => 0, fun _ => 0, fun _ => 2, 2, false⟩ (by decide) (by decide)⟩

/- ## `GPUSPH::rollCallParticles` -/

/-- A roll-call warning, carrying the particle identity it is about. -/
inductive RcWarn where
  | double (part_id : ℕ)   -- "particle ID %u is at indices %u and %u!"
  | missing (part_id : ℕ)  -- "particle ID %u was not found!"
deriving DecidableEq

/-- The particle identity a warning is about. -/
def warnId : RcWarn → ℕ
  | RcWarn.double i => i
  | RcWarn.missing i => i

/-- The persistent roll-call arrays, allocated zeroed (`calloc`) in
`GPUSPH::initialize` and never freed until the end of the run.
`m_rcNotified` in particular is never reset by `rollCallParticles`. -/
structure RcState where
  m_rcBitmap : ℕ → Bool
  m_rcNotified : ℕ → Bool
  m_rcAddrs : ℕ → ℕ

/-- Constant `const bool WARN_EVERY_TIME = false;` of `rollCallParticles`. -/
def WARN_EVERY_TIME : Bool := false

/-- The running state of one roll call: the arrays, the two per-call
first-warning gates, the `all_normal` flag and the warnings printed so
far in this call. -/
structure RcAcc where
  st : RcState
  first_double_warned : Bool
  first_missing_warned : Bool
  all_normal : Bool
  warns : List RcWarn

/-- One iteration of the first loop of `rollCallParticles` (fill the
bitmap and check for duplicates), at `part_index` with identity
`part_id = id(s_hInfo[part_index])`. -/
def rcStep1 (acc : RcAcc) (pe : ℕ × ℕ) : RcAcc :=
  let part_index := pe.1
  let part_id := pe.2
  let acc1 :=
    if acc.st.m_rcBitmap part_id = true ∧ acc.st.m_rcNotified part_id = false then
      { acc with
        warns :=
          if WARN_EVERY_TIME = true ∨ acc.first_double_warned = false then
            acc.warns ++ [RcWarn.double part_id]
          else acc.warns
        first_double_warned :=
          if WARN_EVERY_TIME = true ∨ acc.first_double_warned = false then true
          else acc.first_double_warned
        all_normal := false
        st := { acc.st with
          m_rcNotified := fun k => if k = part_id then true else acc.st.m_rcNotified k } }
    else acc
  { acc1 with st := { acc1.st with
      m_rcBitmap := fun k => if k = part_id then true else acc1.st.m_rcBitmap k,
      m_rcAddrs := fun k => if k = part_id then part_index else acc1.st.m_rcAddrs k } }

/-- One iteration of the second loop of `rollCallParticles` (check if
some identity is missing). -/
def rcStep2 (acc : RcAcc) (part_id : ℕ) : RcAcc :=
  if acc.st.m_rcBitmap part_id = false ∧ acc.st.m_rcNotified part_id = false then
    { acc with
      warns :=
        if WARN_EVERY_TIME = true ∨ acc.first_missing_warned = false then
          acc.warns ++ [RcWarn.missing part_id]
        else acc.warns
      first_missing_warned :=
        if WARN_EVERY_TIME = true ∨ acc.first_missing_warned = false then true
        else acc.first_missing_warned
      all_normal := false
      st := { acc.st with
        m_rcNotified := fun k => if k = part_id then true else acc.st.m_rcNotified k } }
  else acc

/-- Model of `GPUSPH::rollCallParticles`: reset the bitmap and the
addresses for the first `ids.length` identities (`ids` is the identity of
each of the `processParticles[mpi_rank]` particles, in index order;
`m_rcNotified` is NOT reset), run the duplicate-detection loop over the
particle indices, then the missing-detection loop over the identity
range.  Returns the updated persistent state and the warnings printed. -/
def rollCallParticles (ids : List ℕ) (st0 : RcState) : RcState × List RcWarn :=
  let st1 : RcState :=
    { m_rcBitmap := fun i => if i < ids.length then false else st0.m_rcBitmap i
      m_rcNotified := st0.m_rcNotified
      m_rcAddrs := fun i => if i < ids.length then 4294967295 else st0.m_rcAddrs i }
  let acc1 := ids.enum.foldl rcStep1 ⟨st1, false, false, true, []⟩
  let acc2 := (List.range ids.length).foldl rcStep2 acc1
  (acc2.st, acc2.warns)

/-- A run of roll calls: fold over the calls, threading the persistent
state, collecting each call's warning list. -/
def runRollCalls : List (List ℕ) → RcState → RcState × List (List RcWarn)
  | [], st => (st, [])
  | ids :: rest, st =>
    let r1 := rollCallParticles ids st
    let r2 := runRollCalls rest r1.1
    (r2.1, r1.2 :: r2.2)

/-- The roll-call arrays as `initialize` leaves them (`calloc` zeroes). -/
def initialRcState : RcState := ⟨fun _ => false, fun _ => false, fun _ => 0⟩

/- ### Roll-call invariants -/

/-- Invariant of one roll call relative to the notified map at its entry:
every warning printed so far is about an identity whose notified entry is
now set; no identity is warned twice; identities already notified at
entry are never warned and stay notified. -/
def RcInv (st0 : RcState) (acc : RcAcc) : Prop :=
  (∀ w ∈ acc.warns, acc.st.m_rcNotified (warnId w) = true) ∧
  (∀ j, (acc.warns.map warnId).count j ≤ 1) ∧
  (∀ j, st0.m_rcNotified j = true →
    acc.st.m_rcNotified j = true ∧ j ∉ acc.warns.map warnId)

theorem RcInv_step (st0 : RcState) (acc acc' : RcAcc)
    (hA : ∀ j, acc.st.m_rcNotified j = true → acc'.st.m_rcNotified j = true)
    (hB : acc'.warns = acc.warns ∨
      ∃ w : RcWarn, acc'.warns = acc.warns ++ [w] ∧
        acc.st.m_rcNotified (warnId w) = false ∧
        acc'.st.m_rcNotified (warnId w) = true)
    (hInv : RcInv st0 acc) : RcInv st0 acc' := by
  obtain ⟨h1, h2, h3⟩ := hInv
  rcases hB with hB | ⟨w, hw, hwn, hwn'⟩
  · refine ⟨?_, ?_, ?_⟩
    · intro w hwmem
      rw [hB] at hwmem
      exact hA _ (h1 w hwmem)
    · intro j; rw [hB]; exact h2 j
    · intro j hj
      obtain ⟨ha, hb⟩ := h3 j hj
      exact ⟨hA j ha, by rw [hB]; exact hb⟩
  · have hfresh : warnId w ∉ acc.warns.map warnId := by
      intro hmem
      obtain ⟨w', hw'mem, hw'eq⟩ := List.mem_map.mp hmem
      have := h1 w' hw'mem
      rw [hw'eq] at this
      rw [this] at hwn
      exact Bool.true_eq_false.mp hwn
    refine ⟨?_, ?_, ?_⟩
    · intro v hvmem
      rw [hw] at hvmem
      rcases List.mem_append.mp hvmem with hv | hv
      · exact hA _ (h1 v hv)
      · have : v = w := List.mem_singleton.mp hv
        rw [this]; exact hwn'
    · intro j
      rw [hw, List.map_append, List.count_append]
      by_cases hj : j = warnId w
      · subst hj
        have hz : (acc.warns.map warnId).count (warnId w) = 0 :=
          List.count_eq_zero.mpr hfresh
        rw [hz]
        simp
      · have hz2 : (List.map warnId [w]).count j = 0 :=
          List.count_eq_zero.mpr (by simpa using hj)
        have := h2 j
        omega
    · intro j hj
      obtain ⟨ha, hb⟩ := h3 j hj
      refine ⟨hA j ha, ?_⟩
      rw [hw, List.map_append]
      intro hmem
      rcases List.mem_append.mp hmem with hv | hv
      · exact hb hv
      · have : j = warnId w := by simpa using hv
        rw [this] at ha
        rw [ha] at hwn
        exact Bool.true_eq_false.mp hwn

theorem rcStep1_A (acc : RcAcc) (pe : ℕ × ℕ) :
    ∀ j, acc.st.m_rcNotified j = true → (rcStep1 acc pe).st.m_rcNotified j = true := by
  intro j hj
  unfold rcStep1
  by_cases hdet : acc.st.m_rcBitmap pe.2 = true ∧ acc.st.m_rcNotified pe.2 = false
  · simp only [if_pos hdet]
    by_cases hje : j = pe.2 <;> simp [hje, hj]
  · simp only [if_neg hdet]
    exact hj

theorem rcStep1_B (acc : RcAcc) (pe : ℕ × ℕ) :
    (rcStep1 acc pe).warns = acc.warns ∨
      ∃ w : RcWarn, (rcStep1 acc pe).warns = acc.warns ++ [w] ∧
        acc.st.m_rcNotified (warnId w) = false ∧
        (rcStep1 acc pe).st.m_rcNotified (warnId w) = true := by
  unfold rcStep1
  by_cases hdet : acc.st.m_rcBitmap pe.2 = true ∧ acc.st.m_rcNotified pe.2 = false
  · simp only [if_pos hdet]
    by_cases hgate : WARN_EVERY_TIME = true ∨ acc.first_double_warned = false
    · right
      refine ⟨RcWarn.double pe.2, ?_, hdet.2, ?_⟩
      · simp [hgate]
      · simp [warnId]
    · left; simp [hgate]
  · left; simp [hdet]

theorem rcStep2_A (acc : RcAcc) (pid : ℕ) :
    ∀ j, acc.st.m_rcNotified j = true → (rcStep2 acc pid).st.m_rcNotified j = true := by
  intro j hj
  unfold rcStep2
  by_cases hdet : acc.st.m_rcBitmap pid = false ∧ acc.st.m_rcNotified pid = false
  · simp only [if_pos hdet]
    by_cases hje : j = pid <;> simp [hje, hj]
  · simp only [if_neg hdet]
    exact hj

theorem rcStep2_B (acc : RcAcc) (pid : ℕ) :
    (rcStep2 acc pid).warns = acc.warns ∨
      ∃ w : RcWarn, (rcStep2 acc pid).warns = acc.warns ++ [w] ∧
        acc.st.m_rcNotified (warnId w) = false ∧
        (rcStep2 acc pid).st.m_rcNotified (warnId w) = true := by
  unfold rcStep2
  by_cases hdet : acc.st.m_rcBitmap pid = false ∧ acc.st.m_rcNotified pid = false
  · simp only [if_pos hdet]
    by_cases hgate : WARN_EVERY_TIME = true ∨ acc.first_missing_warned = false
    · right
      refine ⟨RcWarn.missing pid, ?_, hdet.2, ?_⟩
      · simp [hgate]
      · simp [warnId]
    · left; simp [hgate]
  · left; simp [hdet]

theorem foldl_RcInv {β : Type} (st0 : RcState) (step : RcAcc → β → RcAcc)
    (hA : ∀ acc x j, acc.st.m_rcNotified j = true → (step acc x).st.m_rcNotified j = true)
    (hB : ∀ acc x, (step acc x).warns = acc.warns ∨
      ∃ w : RcWarn, (step acc x).warns = acc.warns ++ [w] ∧
        acc.st.m_rcNotified (warnId w) = false ∧
        (step acc x).st.m_rcNotified (warnId w) = true) :
    ∀ (l : List β) (acc : RcAcc), RcInv st0 acc → RcInv st0 (l.foldl step acc) := by
  intro l
  induction l with
  | nil => intro acc h; exact h
  | cons x l ih =>
    intro acc h
    exact ih (step acc x) (RcInv_step st0 acc (step acc x) (hA acc x) (hB acc x) h)

/-- One roll call: its warnings are about pairwise distinct identities,
all marked notified afterwards; identities notified at entry are not
warned and stay notified. -/
theorem rollCallParticles_inv (ids : List ℕ) (st0 : RcState) :
    (∀ w ∈ (rollCallParticles ids st0).2,
      (rollCallParticles ids st0).1.m_rcNotified (warnId w) = true) ∧
    (∀ j, ((rollCallParticles ids st0).2.map warnId).count j ≤ 1) ∧
    (∀ j, st0.m_rcNotified j = true →
      (rollCallParticles ids st0).1.m_rcNotified j = true ∧
      j ∉ (rollCallParticles ids st0).2.map warnId) := by
  have hinit : RcInv st0
      ⟨⟨fun i => if i < ids.length then false else st0.m_rcBitmap i,
        st0.m_rcNotified,
        fun i => if i < ids.length then 4294967295 else st0.m_rcAddrs i⟩,
      false, false, true, []⟩ := by
    refine ⟨?_, ?_, ?_⟩
    · intro w hw; exact absurd hw (List.not_mem_nil w)
    · intro j; simp
    · intro j hj; exact ⟨hj, by simp⟩
  have h1 := foldl_RcInv st0 rcStep1 rcStep1_A rcStep1_B ids.enum _ hinit
  have h2 := foldl_RcInv st0 rcStep2 rcStep2_A rcStep2_B (List.range ids.length) _ h1
  exact h2

/-- A run of roll calls: identities already notified are never warned
again and stay notified; every warned identity ends up notified; over the
whole run no identity is warned more than once. -/
theorem runRollCalls_inv (calls : List (List ℕ)) :
    ∀ (st0 : RcState),
    (∀ j, st0.m_rcNotified j = true →
      (runRollCalls calls st0).1.m_rcNotified j = true ∧
      j ∉ ((runRollCalls calls st0).2.flatten.map warnId)) ∧
    (∀ j, j ∈ ((runRollCalls calls st0).2.flatten.map warnId) →
      (runRollCalls calls st0).1.m_rcNotified j = true) ∧
    (∀ j, (((runRollCalls calls st0).2.flatten).map warnId).count j ≤ 1) := by
  induction calls with
  | nil =>
    intro st0
    refine ⟨fun j hj => ⟨hj, by simp [runRollCalls]⟩, ?_, ?_⟩
    · intro j hj; simp [runRollCalls] at hj
    · intro j; simp [runRollCalls]
  | cons ids rest ih =>
    intro st0
    obtain ⟨c1, c2, c3⟩ := rollCallParticles_inv ids st0
    obtain ⟨i1, i2, i3⟩ := ih (rollCallParticles ids st0).1
    have hjoin : (runRollCalls (ids :: rest) st0).2.flatten =
        (rollCallParticles ids st0).2 ++
          (runRollCalls rest (rollCallParticles ids st0).1).2.flatten := by
      simp [runRollCalls]
    have hfst : (runRollCalls (ids :: rest) st0).1 =
        (runRollCalls rest (rollCallParticles ids st0).1).1 := by
      simp [runRollCalls]
    refine ⟨?_, ?_, ?_⟩
    · intro j hj
      obtain ⟨ha, hb⟩ := c3 j hj
      obtain ⟨ha2, hb2⟩ := i1 j ha
      rw [hjoin, hfst, List.map_append]
      exact ⟨ha2, by simp only [List.mem_append]; intro h; rcases h with h | h
        <;> [exact hb h; exact hb2 h]⟩
    · intro j hj
      rw [hjoin, List.map_append, List.mem_append] at hj
      rw [hfst]
      rcases hj with hj | hj
      · obtain ⟨w, hwmem, hweq⟩ := List.mem_map.mp hj
        have := c1 w hwmem
        rw [hweq] at this
        exact (i1 j this).1
      · exact i2 j hj
    · intro j
      rw [hjoin, List.map_append, List.count_append]
      by_cases hj : j ∈ (rollCallParticles ids st0).2.map warnId
      · obtain ⟨w, hwmem, hweq⟩ := List.mem_map.mp hj
        have hnot := c1 w hwmem
        rw [hweq] at hnot
        have : j ∉ ((runRollCalls rest (rollCallParticles ids st0).1).2.flatten.map warnId) :=
          (i1 j hnot).2
        have hz : ((runRollCalls rest (rollCallParticles ids st0).1).2.flatten.map
            warnId).count j = 0 := List.count_eq_zero.mpr this
        have := c2 j
        omega
      · have hz : ((rollCallParticles ids st0).2.map warnId).count j = 0 :=
          List.count_eq_zero.mpr hj
        have := i3 j
        omega

/-- Running `runRollCalls` over appended call lists threads the state and appends
the warning lists. -/
theorem runRollCalls_append (calls1 calls2 : List (List ℕ)) :
    ∀ st : RcState,
    runRollCalls (calls1 ++ calls2) st =
      ⟨(runRollCalls calls2 (runRollCalls calls1 st).1).1,
       (runRollCalls calls1 st).2 ++ (runRollCalls calls2 (runRollCalls calls1 st).1).2⟩ := by
  induction calls1 with
  | nil => intro st; simp [runRollCalls]
  | cons ids rest ih =>
    intro st
    rw [List.cons_append]
    have hstep : runRollCalls (ids :: (rest ++ calls2)) st =
        ((runRollCalls (rest ++ calls2) (rollCallParticles ids st).1).1,
         (rollCallParticles ids st).2 ::
           (runRollCalls (rest ++ calls2) (rollCallParticles ids st).1).2) := rfl
    have hstep2 : runRollCalls (ids :: rest) st =
        ((runRollCalls rest (rollCallParticles ids st).1).1,
         (rollCallParticles ids st).2 ::
           (runRollCalls rest (rollCallParticles ids st).1).2) := rfl
    rw [hstep, hstep2, ih (rollCallParticles ids st).1]
    simp

/-- C10: `rollCallParticles` reports each anomalous particle identity at
most once over the entire run: once a warning for an identity has been
printed in some roll call, the notified entry for it is set (and never
reset), no later roll call prints another warning for it, and the count
of warnings about it over the whole run is exactly one. -/
theorem rollCall_reports_once (calls1 calls2 : List (List ℕ)) (pid : ℕ)
    (hw : pid ∈ ((runRollCalls calls1 initialRcState).2.flatten.map warnId)) :
    (runRollCalls calls1 initialRcState).1.m_rcNotified pid = true ∧
    pid ∉ ((runRollCalls calls2
      (runRollCalls calls1 initialRcState).1).2.flatten.map warnId) ∧
    (((runRollCalls (calls1 ++ calls2) initialRcState).2.flatten.map warnId).count pid = 1) := by
  obtain ⟨a1, a2, a3⟩ := runRollCalls_inv calls1 initialRcState
  have hnot : (runRollCalls calls1 initialRcState).1.m_rcNotified pid = true := a2 pid hw
  obtain ⟨b1, b2, b3⟩ := runRollCalls_inv calls2 (runRollCalls calls1 initialRcState).1
  have hnever : pid ∉ ((runRollCalls calls2
      (runRollCalls calls1 initialRcState).1).2.flatten.map warnId) := (b1 pid hnot).2
  refine ⟨hnot, hnever, ?_⟩
  rw [runRollCalls_append calls1 calls2 initialRcState]
  simp only [List.flatten_append, List.map_append, List.count_append]
  have h1 : ((runRollCalls calls1 initialRcState).2.flatten.map warnId).count pid ≤ 1 :=
    a3 pid
  have h2 : 0 < ((runRollCalls calls1 initialRcState).2.flatten.map warnId).count pid :=
    List.count_pos_iff_mem.mpr hw
  have h3 : ((runRollCalls calls2
      (runRollCalls calls1 initialRcState).1).2.flatten.map warnId).count pid = 0 :=
    List.count_eq_zero.mpr hnever
  omega

/-- Witness for C10: identity 0 appears twice in the first roll call (one
warning), and the identical second roll call warns nothing. -/
theorem rollCall_reports_once_witness :
    (0 ∈ ((runRollCalls [[0, 0]] initialRcState).2.flatten.map warnId)) ∧
    ((runRollCalls [[0, 0]] initialRcState).1.m_rcNotified 0 = true ∧
    0 ∉ ((runRollCalls [[0, 0]]
      (runRollCalls [[0, 0]] initialRcState).1).2.flatten.map warnId) ∧
    (((runRollCalls ([[0, 0]] ++ [[0, 0]]) initialRcState).2.flatten.map
      warnId).count 0 = 1)) :=
  ⟨by decide, rollCall_reports_once [[0, 0]] [[0, 0]] 0 (by decide)⟩

end GPUSPH
